import Mathlib

/-!
Verification of the GPX route-time estimator (`src/script.js`).

The numeric code is embedded shallowly over `ℚ` (exact rational arithmetic in
place of IEEE doubles; every arithmetic operation of the source is otherwise
kept).  The one transcendental collaborator, `haversineKm`, cannot be expressed
over `ℚ`; it is modelled as an abstract distance function bundled with its one
provable property used by the code (non-negativity: it returns
`R * 2 * atan2(sqrt a, sqrt (1-a))` with both `atan2` arguments non-negative).
DOM access, Leaflet markers and XML parsing are outside the embedding; parsed
segments and imported waypoints enter as explicit arguments.
-/

namespace GpxPlanner

/-- JavaScript `Math.sign`, as used by `cumulativeDeadbandFilter`. -/
def jsSign (q : ℚ) : ℚ :=
  if 0 < q then 1 else if q < 0 then -1 else 0

/-- JavaScript `Math.round` (round half toward positive infinity). -/
def jsRound (q : ℚ) : ℤ := ⌊q + 1/2⌋

/-- `clamp(x, a, b)` from the utils section of `script.js`:
`Math.max(a, Math.min(b, x))`. -/
def clamp (x a b : ℚ) : ℚ := max a (min b x)

/-- `clampToOdd(val, minOdd, maxOdd)` from `script.js`: clamp, then bump an
even value up by one (down when already at the top of the range). -/
def clampToOdd (val minOdd maxOdd : ℤ) : ℤ :=
  let v := max minOdd (min maxOdd val)
  if v % 2 = 0 then v + (if maxOdd ≤ v then -1 else 1) else v

/-- A parsed GPX track point: latitude, longitude (degrees) and an optional
elevation in meters (`ele: Number.isFinite(ele) ? ele : null`). -/
structure TrackPoint where
  lat : ℚ
  lon : ℚ
  ele : Option ℚ
deriving Repr, DecidableEq, Inhabited

/-- Abstract model of `haversineKm(lat1, lon1, lat2, lon2)`.  The real
function is `6371 * 2 * atan2(sqrt a, sqrt (1 - a))` with `a ∈ [0, 1]`, which
is transcendental; we keep the function abstract and carry its provable
non-negativity (`atan2` of two non-negative arguments is non-negative). -/
structure Haversine where
  d : ℚ → ℚ → ℚ → ℚ → ℚ
  nonneg : ∀ lat1 lon1 lat2 lon2, 0 ≤ d lat1 lon1 lat2 lon2

/-- A concrete instance of the abstract distance used to evaluate the
embedding on explicit inputs (any non-negative function that, like the real
haversine, vanishes on coordinate-equal points works; note the real
`haversineKm` returns exactly `0` for two points with equal latitude and
longitude, which this instance reproduces). -/
def havSq : Haversine where
  d := fun lat1 lon1 lat2 lon2 => (lat2 - lat1) ^ 2 + (lon2 - lon1) ^ 2
  nonneg := fun _ _ _ _ => by positivity

/-- Pace-model and filter settings read from the form inputs at the start of
the calculate handler. -/
structure Params where
  speedFlatKmh : ℚ
  speedVertMh : ℚ
  downhillFactor : ℚ
  spacingM : ℚ
  smoothWinM : ℚ
  elevDeadbandM : ℚ
deriving Repr, DecidableEq

/-! ## Per-step time model (calculate handler, lines 204-215) -/

/-- `ascentM = dEleF > 0 ? dEleF : 0`. -/
def stepAscentM (dEleF : ℚ) : ℚ := if 0 < dEleF then dEleF else 0

/-- `descentM = dEleF < 0 ? -dEleF : 0`. -/
def stepDescentM (dEleF : ℚ) : ℚ := if dEleF < 0 then -dEleF else 0

/-- The per-step time of the calculate handler:
`h = distKm / speedFlatKmh`, `vMag = ascentM > 0 ? ascentM : descentM`,
`v = vMag > 0 ? vMag / speedVertMh : 0`,
`segTimeH = max(h, v) + 0.5 * min(h, v)`,
then `segTimeH *= downhillFactor` when `descentM > 0 && descentM >= ascentM`. -/
def stepTimeH (P : Params) (distKm dEleF : ℚ) : ℚ :=
  let ascentM := stepAscentM dEleF
  let descentM := stepDescentM dEleF
  let h := distKm / P.speedFlatKmh
  let vMag := if 0 < ascentM then ascentM else descentM
  let v := if 0 < vMag then vMag / P.speedVertMh else 0
  let segTimeH := max h v + (0.5 : ℚ) * min h v
  if 0 < descentM ∧ ascentM ≤ descentM then segTimeH * P.downhillFactor else segTimeH

/-! ## Leg total-time composition (renderRoadbooksTable line 426 and
serializePlan line 616) -/

/-- `totalH = timeH * (1 + condPct / 100) + (stopsMin / 60)` as written in
`renderRoadbooksTable`. -/
def renderLegTotalH (timeH stopsMin condPct : ℚ) : ℚ :=
  timeH * (1 + condPct / 100) + stopsMin / 60

/-- `totalH = baseH * (1 + condPct / 100) + (stopsMin / 60)` as written in
`serializePlan`. -/
def serializeLegTotalH (baseH stopsMin condPct : ℚ) : ℚ :=
  baseH * (1 + condPct / 100) + stopsMin / 60

/-! ## Elevation gap-filler (`fillElevationOnPoints`) -/

/-- First pass of `fillElevationOnPoints`: left-to-right, a `null` elevation
takes the nearest earlier present value. -/
def forwardFillPts (last : Option ℚ) : List TrackPoint → List TrackPoint
  | [] => []
  | p :: ps =>
    match p.ele with
    | none => { p with ele := last } :: forwardFillPts last ps
    | some e => p :: forwardFillPts (some e) ps

/-- Second pass of `fillElevationOnPoints`: right-to-left, a still-`null`
elevation takes the nearest later present value.  Returns the rewritten list
together with the value propagated leftwards. -/
def backFillPts : List TrackPoint → List TrackPoint × Option ℚ
  | [] => ([], none)
  | p :: ps =>
    let r := backFillPts ps
    match p.ele with
    | none => ({ p with ele := r.2 } :: r.1, r.2)
    | some e => (p :: r.1, some e)

/-- `fillElevationOnPoints(points)` from `script.js`. -/
def fillElevationOnPoints (points : List TrackPoint) : List TrackPoint :=
  (backFillPts (forwardFillPts none points)).1

/-! ## Median filter (`medianFilter`) -/

/-- One output sample of `medianFilter`: the non-null values in the clamped
window `[i - half, i + half]`, sorted; `null` when the window holds none,
the middle element for an odd count, the mean of the two middle ones for an
even count. -/
def medianAt (arr : List (Option ℚ)) (half i : ℕ) : Option ℚ :=
  let start := i - half
  let endI := min (arr.length - 1) (i + half)
  let vals := ((List.range' start (endI + 1 - start)).filterMap
    (fun k => arr.getD k none)).insertionSort (· ≤ ·)
  if vals.length = 0 then none
  else
    let mid := vals.length / 2
    if vals.length % 2 = 1 then some (vals.getD mid 0)
    else some ((vals.getD (mid - 1) 0 + vals.getD mid 0) / 2)

/-- `medianFilter(arr, win)` from `script.js` (`half = Math.floor(win / 2)`;
the `i - half` window start is clamped at `0`, which truncated natural
subtraction provides). -/
def medianFilter (arr : List (Option ℚ)) (win : ℕ) : List (Option ℚ) :=
  if arr.length = 0 then arr
  else (List.range arr.length).map (medianAt arr (win / 2))

/-! ## Cumulative deadband filter (`cumulativeDeadbandFilter`) -/

/-- The body of the `for` loop of `cumulativeDeadbandFilter`, one output per
remaining raw sample.  Arguments: accumulated error `cumErr`, previous output
`outPrev` (`out[i-1]`, always resolved), previous raw sample `elevPrev`
(`elev[i-1]`, may be `null`) and the remaining raw samples from `i` on.
`prev = elev[i-1] ?? elev[i] ?? out[i-1]`, `cur = elev[i] ?? prev`. -/
def deadbandLoop (deadband : ℚ) : ℚ → ℚ → Option ℚ → List (Option ℚ) → List ℚ
  | _, _, _, [] => []
  | cumErr, outPrev, elevPrev, e :: rest =>
    let prev := (elevPrev.orElse fun _ => e).getD outPrev
    let cur := e.getD prev
    let c := cumErr + (cur - prev)
    if deadband < |c| then
      let o := outPrev + (c - jsSign c * deadband)
      o :: deadbandLoop deadband (jsSign c * deadband) o e rest
    else
      outPrev :: deadbandLoop deadband c outPrev e rest

/-- `cumulativeDeadbandFilter(elev, deadband)` from `script.js`: scan for the
first non-null sample (index `i0`, value `first`); if none, return the input
unchanged.  Otherwise positions `0..i0` all output `first` and the loop
processes positions `i0+1..n-1`. -/
def cumulativeDeadbandFilter (elev : List (Option ℚ)) (deadband : ℚ) :
    List (Option ℚ) :=
  let i0 := elev.findIdx (·.isSome)
  match elev.drop i0 with
  | [] => elev
  | e0 :: rest =>
    let first := e0.getD 0
    List.replicate (i0 + 1) (some first) ++
      (deadbandLoop deadband 0 first e0 rest).map some

/-! ## Spec-side deadband definitions -/

/-- Modelled from the spec: the null-filled raw values that §4.4 says the
deadband deltas are taken between — leading nulls back-filled from the first
available value, later nulls carrying the prior value forward. -/
def forwardFillQ (last : Option ℚ) : List (Option ℚ) → List (Option ℚ)
  | [] => []
  | e :: rest =>
    match e with
    | some v => some v :: forwardFillQ (some v) rest
    | none => last :: forwardFillQ last rest

/-- Modelled from the spec: "pass-through of (null-filled) raw values" — the
input with nulls filled in (back-fill before the first value, forward fill
after it); inputs with no value at all are unchanged. -/
def fillNulls (elev : List (Option ℚ)) : List (Option ℚ) :=
  let i0 := elev.findIdx (·.isSome)
  match elev.drop i0 with
  | [] => elev
  | e0 :: rest => List.replicate i0 e0 ++ e0 :: forwardFillQ e0 rest

/-- Modelled from the spec: the claim's per-sample update run over plain
(null-filled) values — `delta = current_raw − previous_raw` with nulls
carrying forward the prior value, accumulated into `cumErr` with the
release/reset rule. -/
def claimedLoop (deadband : ℚ) : ℚ → ℚ → ℚ → List ℚ → List ℚ
  | _, _, _, [] => []
  | cumErr, outPrev, prevRaw, v :: rest =>
    let c := cumErr + (v - prevRaw)
    if deadband < |c| then
      let o := outPrev + (c - jsSign c * deadband)
      o :: claimedLoop deadband (jsSign c * deadband) o v rest
    else
      outPrev :: claimedLoop deadband c outPrev v rest

/-- Modelled from the spec: the deadband filter exactly as C3 words it, with
deltas between consecutive null-filled raw samples. -/
def specDeadbandClaimed (elev : List (Option ℚ)) (deadband : ℚ) :
    List (Option ℚ) :=
  match fillNulls elev with
  | [] => elev
  | f0 :: rest =>
    match f0 with
    | none => elev
    | some v0 =>
      some v0 ::
        (claimedLoop deadband 0 v0 v0 (rest.map (·.getD v0))).map some

/-- One step of the deadband update rule at absolute position `i`, acting on
the state (output value, accumulated error); `prev`/`cur` read the raw
samples the way the code resolves nulls (`elev[i-1] ?? elev[i] ?? out[i-1]`
and `elev[i] ?? prev`). -/
def dbStep (elev : List (Option ℚ)) (deadband : ℚ) (i : ℕ) (s : ℚ × ℚ) :
    ℚ × ℚ :=
  let prev := ((elev.getD (i - 1) none).orElse fun _ => elev.getD i none).getD s.1
  let cur := (elev.getD i none).getD prev
  let c := s.2 + (cur - prev)
  if deadband < |c| then (s.1 + (c - jsSign c * deadband), jsSign c * deadband)
  else (s.1, c)

/-- The per-sample state of the deadband update rule, indexed by the number
of samples past the first resolved one. -/
def dbSpecState (elev : List (Option ℚ)) (deadband : ℚ) (i0 : ℕ) (first : ℚ) :
    ℕ → ℚ × ℚ
  | 0 => (first, 0)
  | k + 1 => dbStep elev deadband (i0 + k + 1) (dbSpecState elev deadband i0 first k)

/-- The deadband filter restated as a per-index recurrence: every position up
to the first resolved sample copies it, and each later position carries the
state of `dbSpecState`. -/
def specDeadbandAmended (elev : List (Option ℚ)) (deadband : ℚ) :
    List (Option ℚ) :=
  let i0 := elev.findIdx (·.isSome)
  if i0 < elev.length then
    let first := (elev.getD i0 none).getD 0
    (List.range elev.length).map fun i =>
      if i ≤ i0 then some first
      else some (dbSpecState elev deadband i0 first (i - i0)).1
  else elev

/-! ## Distance resampler (`resampleByDistance`) -/

/-- Cumulative arc length in meters over the input points:
`cum[0] = 0`, `cum[i] = cum[i-1] + haversineKm(...) * 1000`. -/
def cumArc (H : Haversine) (points : List TrackPoint) : List ℚ :=
  List.scanl (· + ·) 0
    ((points.zip points.tail).map fun pq =>
      H.d pq.1.lat pq.1.lon pq.2.lat pq.2.lon * 1000)

/-- The targets of the loop `for (s = 0; s <= total; s += spacingM)`: over
exact arithmetic with `spacingM > 0` these are `k * spacingM` for
`k = 0 .. ⌊total/spacingM⌋` (empty when `total < 0`: the guard fails on the
first test). -/
def resampleTargets (spacingM total : ℚ) : List ℚ :=
  if total < 0 then []
  else (List.range (⌊total / spacingM⌋.toNat + 1)).map
    fun k : ℕ => (k : ℚ) * spacingM

/-- The final target list of `resampleByDistance`: the loop targets plus the
exact total when the last loop target falls short of it. -/
def resampleTargetsFull (spacingM total : ℚ) : List ℚ :=
  let ts := resampleTargets spacingM total
  if ts.getLastD 0 < total then ts ++ [total] else ts

/-- The advance `while (j < cum.length && cum[j] < t) j++`, written with
structural fuel; any fuel of at least `cum.length - j` reproduces the
unbounded loop, which can advance at most up to `j = cum.length`. -/
def advanceJ (cum : List ℚ) (t : ℚ) : ℕ → ℕ → ℕ
  | 0, j => j
  | fuel + 1, j =>
    if j < cum.length ∧ cum.getD j 0 < t then advanceJ cum t fuel (j + 1) else j

/-- The target loop of `resampleByDistance`: per target, advance `j`, then
either copy the final input point (`j` ran off the end) or interpolate
between the bracketing input points (`denom = (t1 - t0) || 1`,
`a = clamp((t - t0) / denom, 0, 1)`, elevation interpolated only when both
ends carry one). -/
def resampleLoop (points : List TrackPoint) (cum : List ℚ) :
    ℕ → List ℚ → List TrackPoint
  | _, [] => []
  | j, t :: ts =>
    let j1 := advanceJ cum t cum.length j
    if cum.length ≤ j1 then
      points.getLastD default :: resampleLoop points cum j1 ts
    else
      let t0 := cum.getD (j1 - 1) 0
      let t1 := cum.getD j1 0
      let p0 := points.getD (j1 - 1) default
      let p1 := points.getD j1 default
      let denom := if t1 - t0 = 0 then 1 else t1 - t0
      let a := clamp ((t - t0) / denom) 0 1
      { lat := p0.lat + a * (p1.lat - p0.lat)
        lon := p0.lon + a * (p1.lon - p0.lon)
        ele :=
          match p0.ele, p1.ele with
          | some e0, some e1 => some (e0 + a * (e1 - e0))
          | some e0, none => some e0
          | none, e1 => e1 } :: resampleLoop points cum j1 ts

/-- `resampleByDistance(points, spacingM)` from `script.js` (the `!isFinite`
guard cannot fire over `ℚ` and is dropped; `total === 0` returns
`points.slice(0, min(length, 2))`). -/
def resampleByDistance (H : Haversine) (points : List TrackPoint)
    (spacingM : ℚ) : List TrackPoint :=
  let cum := cumArc H points
  let total := cum.getLastD 0
  if total = 0 then points.take 2
  else resampleLoop points cum 1 (resampleTargetsFull spacingM total)

/-! ## Session state and the calculate run

The Leaflet map, markers, DOM table and file reader are outside the
embedding; the session state below carries exactly the script's module-level
mutable data (marker lockedness included, since the click handler reads it),
plus the `output` element's message.  The leg-override maps are keyed in the
source by the string `"a|b"` formed from the two endpoint indices; the key is
only ever built from and split back into that pair of numbers, so it is
modelled as the pair itself. -/

structure Waypoint where
  lat : ℚ
  lon : ℚ
  name : String
deriving Repr, DecidableEq

structure CalcState where
  track : List (ℚ × ℚ)
  breakIdx : List ℕ
  cumDistKm : List ℚ
  cumAscentM : List ℚ
  cumDescentM : List ℚ
  cumTimeH : List ℚ
  roadbookIdx : List ℕ
  lockedIdx : List ℕ
  roadbookLabels : List (ℕ × String)
  legLabels : List ((ℕ × ℕ) × String)
  legStopsMin : List ((ℕ × ℕ) × ℕ)
  legCondPct : List ((ℕ × ℕ) × ℕ)
  legCritical : List ((ℕ × ℕ) × Bool)
  output : String
deriving Repr, DecidableEq, Inhabited

/-- The cumulative-array well-formedness the spec's §3 describes, as the
code maintains it: the four arrays share one length (one entry per
trajectory point; a single `[0]` row when no points exist), start at `0`,
and are monotone non-decreasing. -/
def CumOK (s : CalcState) : Prop :=
  s.cumDistKm.length = max 1 s.track.length ∧
  s.cumAscentM.length = max 1 s.track.length ∧
  s.cumDescentM.length = max 1 s.track.length ∧
  s.cumTimeH.length = max 1 s.track.length ∧
  s.cumDistKm.head? = some 0 ∧
  s.cumAscentM.head? = some 0 ∧
  s.cumDescentM.head? = some 0 ∧
  s.cumTimeH.head? = some 0 ∧
  s.cumDistKm.Chain' (· ≤ ·) ∧
  s.cumAscentM.Chain' (· ≤ ·) ∧
  s.cumDescentM.Chain' (· ≤ ·) ∧
  s.cumTimeH.Chain' (· ≤ ·)

/-- `Map.get`. -/
def mapLookup {α β : Type} [DecidableEq α] (m : List (α × β)) (k : α) :
    Option β :=
  (m.find? fun kv => kv.1 = k).map fun kv => kv.2

/-- `Map.set`. -/
def mapSet {α β : Type} [DecidableEq α] (m : List (α × β)) (k : α) (v : β) :
    List (α × β) :=
  (m.filter fun kv => ¬ kv.1 = k) ++ [(k, v)]

/-- `Map.delete`. -/
def mapDelete {α β : Type} [DecidableEq α] (m : List (α × β)) (k : α) :
    List (α × β) :=
  m.filter fun kv => ¬ kv.1 = k

/-- `nearestIndexOnTrack([la, lo], latlngs)`: linear scan for the index with
the strictly smallest haversine distance (`bestD` starts at `Infinity`,
modelled by `none`; `bestIdx` starts at `0`). -/
def nearestIndexOnTrack (H : Haversine) (pt : ℚ × ℚ)
    (latlngs : List (ℚ × ℚ)) : ℕ :=
  (latlngs.enum.foldl
    (fun best ip =>
      let d := H.d pt.1 pt.2 ip.2.1 ip.2.2
      match best.2 with
      | none => (ip.1, some d)
      | some bd => if d < bd then (ip.1, some d) else best)
    ((0 : ℕ), (none : Option ℚ))).1

/-- `addRoadbookIndex(i, opts)`: clamp the index to the track range; when it
already exists, only refresh a missing/placeholder label; otherwise insert it
(kept sorted), record the initial label and the marker's locked flag. -/
def addRoadbookIndex (s : CalcState) (iRaw : ℕ) (label : String)
    (locked : Bool) : CalcState :=
  let i := min iRaw (s.track.length - 1)
  if s.roadbookIdx.contains i then
    let newLabel := label.trim
    if newLabel ≠ "" ∧ ((mapLookup s.roadbookLabels i).getD "" = "" ∨
        mapLookup s.roadbookLabels i = some ("#" ++ toString i)) then
      { s with roadbookLabels := mapSet s.roadbookLabels i newLabel }
    else s
  else
    let idx2 := (s.roadbookIdx ++ [i]).insertionSort (· ≤ ·)
    let fromLabel := label.trim
    let initial :=
      if fromLabel ≠ "" then fromLabel
      else if (mapLookup s.roadbookLabels i).getD "" ≠ "" then
        (mapLookup s.roadbookLabels i).getD ""
      else if i = 0 then "Start"
      else if i = s.track.length - 1 then "Finish"
      else "WP " ++ toString (idx2.indexOf i)
    { s with
      roadbookIdx := idx2,
      roadbookLabels := mapSet s.roadbookLabels i initial,
      lockedIdx := if locked then s.lockedIdx ++ [i] else s.lockedIdx }

/-- `setRoadbookLabel(idx, newLabel)` (tooltip update is DOM-only). -/
def setRoadbookLabel (s : CalcState) (idx : ℕ) (newLabel : String) :
    CalcState :=
  let label := newLabel.trim
  if s.roadbookIdx.contains idx then
    { s with
      roadbookLabels :=
        mapSet s.roadbookLabels idx
          (if label = "" then "#" ++ toString idx else label) }
  else s

/-- One imported GPX waypoint: snap to the nearest track index, then either
add it (label defaulting to `"WP"`) or fill in a missing label. -/
def importWaypoint (H : Haversine) (s : CalcState) (wp : Waypoint) :
    CalcState :=
  let idx := nearestIndexOnTrack H (wp.lat, wp.lon) s.track
  if ¬ s.roadbookIdx.contains idx then
    addRoadbookIndex s idx (if wp.name = "" then "WP" else wp.name) false
  else if (mapLookup s.roadbookLabels idx).getD "" = "" ∧ wp.name ≠ "" then
    setRoadbookLabel s idx wp.name
  else s

/-- The marker click handler of `addRoadbookIndex`: a locked marker ignores
the click; otherwise the waypoint index is removed, its waypoint label
deleted, every custom leg label whose key mentions the index deleted, and
the stop/condition overrides of the single key `"i|i+1"` deleted.  The
criticality map is not touched at all. -/
def removeRoadbook (s : CalcState) (i : ℕ) : CalcState :=
  if s.lockedIdx.contains i then s
  else
    { s with
      roadbookIdx := s.roadbookIdx.erase i,
      roadbookLabels := mapDelete s.roadbookLabels i,
      legLabels := s.legLabels.filter fun kv => ¬ (kv.1.1 = i ∨ kv.1.2 = i),
      legStopsMin := mapDelete s.legStopsMin (i, i + 1),
      legCondPct := mapDelete s.legCondPct (i, i + 1) }

structure StepVals where
  distKm : ℚ
  ascentM : ℚ
  descentM : ℚ
  segTimeH : ℚ
deriving Repr, DecidableEq

/-- `dEleF = (elevFiltered[i] ?? elevFiltered[i-1]) −
(elevFiltered[i-1] ?? elevFiltered[i])` (the JS `null − null` case coerces
to `0 − 0`). -/
def stepDEleF (f1 f2 : Option ℚ) : ℚ :=
  ((f2.orElse fun _ => f1).getD 0) - ((f1.orElse fun _ => f2).getD 0)

/-- The per-step quantities of the accumulation loop for one consecutive
pair of resampled points and their filtered elevations. -/
def stepVals (P : Params) (H : Haversine) (pp : TrackPoint × TrackPoint)
    (ff : Option ℚ × Option ℚ) : StepVals :=
  let distKm := H.d pp.1.lat pp.1.lon pp.2.lat pp.2.lon
  let dEleF := stepDEleF ff.1 ff.2
  { distKm := distKm
    ascentM := stepAscentM dEleF
    descentM := stepDescentM dEleF
    segTimeH := stepTimeH P distKm dEleF }

/-- All steps `i = 1 .. n-1` of one segment. -/
def stepDeltas (P : Params) (H : Haversine) (resampled : List TrackPoint)
    (elevFiltered : List (Option ℚ)) : List StepVals :=
  ((resampled.zip resampled.tail).zip
    (elevFiltered.zip elevFiltered.tail)).map fun z => stepVals P H z.1 z.2

/-- One iteration of the accumulation loop: push `last + delta` on each of
the four cumulative arrays. -/
def pushStep (s : CalcState) (sv : StepVals) : CalcState :=
  { s with
    cumDistKm := s.cumDistKm ++ [s.cumDistKm.getLastD 0 + sv.distKm],
    cumAscentM := s.cumAscentM ++ [s.cumAscentM.getLastD 0 + sv.ascentM],
    cumDescentM := s.cumDescentM ++ [s.cumDescentM.getLastD 0 + sv.descentM],
    cumTimeH := s.cumTimeH ++ [s.cumTimeH.getLastD 0 + sv.segTimeH] }

/-- Appending one usable segment: record the break index, carry the previous
cumulative totals forward as a duplicate entry when points already exist,
append the coordinates, then run the per-step accumulation. -/
def appendSegData (s : CalcState) (resampled : List TrackPoint)
    (deltas : List StepVals) : CalcState :=
  let s1 := { s with
    breakIdx := s.breakIdx ++ [s.track.length],
    cumDistKm :=
      if 0 < s.track.length then s.cumDistKm ++ [s.cumDistKm.getLastD 0]
      else s.cumDistKm,
    cumAscentM :=
      if 0 < s.track.length then s.cumAscentM ++ [s.cumAscentM.getLastD 0]
      else s.cumAscentM,
    cumDescentM :=
      if 0 < s.track.length then s.cumDescentM ++ [s.cumDescentM.getLastD 0]
      else s.cumDescentM,
    cumTimeH :=
      if 0 < s.track.length then s.cumTimeH ++ [s.cumTimeH.getLastD 0]
      else s.cumTimeH }
  let s2 := { s1 with
    track := s1.track ++ resampled.map fun p => (p.lat, p.lon) }
  deltas.foldl pushStep s2

/-- The per-segment body of the calculate loop (`continue` on fewer than two
raw or resampled points; window width
`clampToOdd(max(3, round(smoothWinM / spacingM)), 3, 999)`). -/
def processSegment (P : Params) (H : Haversine) (s : CalcState)
    (pts : List TrackPoint) : CalcState :=
  if pts.length < 2 then s
  else
    let resampled := resampleByDistance H (fillElevationOnPoints pts) P.spacingM
    if resampled.length < 2 then s
    else
      let winSamples :=
        (clampToOdd (max 3 (jsRound (P.smoothWinM / P.spacingM))) 3 999).toNat
      let elevSmooth := medianFilter (resampled.map fun p => p.ele) winSamples
      let elevFiltered := cumulativeDeadbandFilter elevSmooth P.elevDeadbandM
      appendSegData s resampled (stepDeltas P H resampled elevFiltered)

/-- The full derived-state reset at the top of a non-empty calculate run
(`clearMarkers()` clears the marker list, hence the locked flags). -/
def resetState (s : CalcState) : CalcState :=
  { s with
    track := [], breakIdx := [], cumDistKm := [0], cumAscentM := [0],
    cumDescentM := [0], cumTimeH := [0], roadbookIdx := [], lockedIdx := [],
    roadbookLabels := [], legLabels := [], legStopsMin := [], legCondPct := [],
    legCritical := [] }

/-- The calculate click handler after input validation: zero usable segments
(malformed XML also parses to the empty list) shows the empty-result message
and returns before anything else is touched; otherwise the derived state is
reset and rebuilt segment by segment, the locked Start/Finish waypoints are
added when at least two points exist, and (when enabled) the GPX waypoints
are imported. -/
def calcRun (P : Params) (H : Haversine) (segments : List (List TrackPoint))
    (importRoadbooks : Bool) (waypoints : List Waypoint) (s : CalcState) :
    CalcState :=
  if segments = [] then { s with output := "<p>No track segments found.</p>" }
  else
    let s1 := segments.foldl (processSegment P H) (resetState s)
    let s2 :=
      if 2 ≤ s1.track.length then
        addRoadbookIndex (addRoadbookIndex s1 0 "Start" true)
          (s1.track.length - 1) "Finish" true
      else s1
    if importRoadbooks then waypoints.foldl (importWaypoint H) s2 else s2

/-- The loop of `cumulativeDeadbandFilter`, started from the state after `k`
steps, produces exactly the outputs of the per-index recurrence at indices
`k+1, k+2, …`. -/
lemma deadbandLoop_eq_dbSpecState (elev : List (Option ℚ)) (db : ℚ) (i0 : ℕ)
    (first : ℚ) :
    ∀ m k, m = elev.length - (i0 + k + 1) →
      deadbandLoop db (dbSpecState elev db i0 first k).2
          (dbSpecState elev db i0 first k).1 (elev.getD (i0 + k) none)
          (elev.drop (i0 + k + 1))
        = (List.range' (k + 1) m).map
            fun j => (dbSpecState elev db i0 first j).1 := by
  intro m
  induction m with
  | zero =>
    intro k _
    rw [List.drop_eq_nil_of_le (by omega)]
    rfl
  | succ m ih =>
    intro k hk
    have hlt : i0 + k + 1 < elev.length := by omega
    have hgetD : elev.getD (i0 + k + 1) none = elev[i0 + k + 1] :=
      List.getD_eq_getElem elev none hlt
    have ihk := ih (k + 1) (by omega)
    rw [List.drop_eq_getElem_cons hlt, ← hgetD]
    simp only [List.range', List.map_cons]
    simp only [deadbandLoop, dbSpecState, dbStep, Nat.add_sub_cancel]
    split_ifs with hc
    · refine congrArg₂ List.cons rfl ?_
      simp only [dbSpecState, dbStep, Nat.add_sub_cancel] at ihk
      rw [if_pos hc] at ihk
      exact ihk
    · refine congrArg₂ List.cons rfl ?_
      simp only [dbSpecState, dbStep, Nat.add_sub_cancel] at ihk
      rw [if_neg hc] at ihk
      exact ihk

/-- C3 (amended): the deadband filter follows the spec's accumulate/release
update rule per sample, except that a null at `i-1` resolves to
`elev[i-1] ?? elev[i] ?? out[i-1]` (the current raw value first, then the
previous output) rather than carrying the prior value forward. -/
theorem C3_deadband_update_rule_amended (elev : List (Option ℚ)) (db : ℚ) :
    cumulativeDeadbandFilter elev db = specDeadbandAmended elev db := by
  by_cases h : elev.findIdx (·.isSome) < elev.length
  · set i0 := elev.findIdx (·.isSome) with hi0
    set m := elev.length - (i0 + 1) with hm
    have hsome : (elev.getD i0 none).isSome = true := by
      rw [List.getD_eq_getElem elev none h]
      exact List.findIdx_getElem (w := h)
    obtain ⟨first, hgetD0⟩ := Option.isSome_iff_exists.mp hsome
    have hfirst : elev[i0] = some first := by
      rw [← List.getD_eq_getElem elev none h]; exact hgetD0
    have hloop := deadbandLoop_eq_dbSpecState elev db i0 first m 0 (by omega)
    simp only [dbSpecState, Nat.add_zero, hgetD0, Option.getD_some] at hloop
    simp only [cumulativeDeadbandFilter, ← hi0, List.drop_eq_getElem_cons h,
      hfirst, Option.getD_some, hloop]
    simp only [specDeadbandAmended, ← hi0, if_pos h, hgetD0, Option.getD_some]
    rw [show elev.length = (i0 + 1) + m by omega, List.range_add,
      List.map_append]
    refine congrArg₂ (· ++ ·) ?_ ?_
    · rw [List.map_congr_left (fun a ha => ?_), List.map_const',
        List.length_range]
      have : a ≤ i0 := by
        have := List.mem_range.mp ha
        omega
      simp [this]
    · rw [List.range'_eq_map_range]
      simp only [List.map_map]
      refine List.map_congr_left fun a _ => ?_
      have h1 : ¬ i0 + 1 + a ≤ i0 := by omega
      have h2 : i0 + 1 + a - i0 = 1 + a := by omega
      simp [Function.comp, h1, h2, Nat.zero_add]
  · have hdrop : elev.drop (elev.findIdx (·.isSome)) = [] :=
      List.drop_eq_nil_of_le (not_lt.mp h)
    simp only [cumulativeDeadbandFilter, specDeadbandAmended, hdrop, if_neg h]

/-- C3 (counterexample): on `[0, null, 10]` with deadband `0` the filter
holds at `0` for ever (the null at index 1 makes both deltas vanish), while
the claim's rule — deltas between null-filled raw values — reaches `10`. -/
theorem C3_counterexample_null_handling :
    cumulativeDeadbandFilter [some 0, none, some 10] 0 ≠
      specDeadbandClaimed [some 0, none, some 10] 0 := by
  have h1 : cumulativeDeadbandFilter [some 0, none, some 10] 0
      = [some 0, some 0, some 0] := by
    norm_num [cumulativeDeadbandFilter, deadbandLoop, jsSign, List.findIdx_cons]
  have h2 : specDeadbandClaimed [some 0, none, some 10] 0
      = [some 0, some 0, some 10] := by
    norm_num [specDeadbandClaimed, fillNulls, forwardFillQ, claimedLoop,
      jsSign, List.findIdx_cons]
  rw [h1, h2]
  simp

/-! ### Zero-deadband behaviour -/

/-- With deadband `0` and a null previous raw sample, a run of nulls holds
the output. -/
lemma deadbandLoop_zero_none :
    ∀ (b : ℕ) (o : ℚ),
      deadbandLoop 0 0 o none (List.replicate b none) = List.replicate b o := by
  intro b
  induction b with
  | zero => intro o; rfl
  | succ b ih =>
    intro o
    simp only [List.replicate_succ, deadbandLoop, Option.orElse, Option.getD]
    norm_num [ih o]

/-- With deadband `0`, starting at output `p` with previous raw `p`, a tail
of some-values followed by nulls passes the values through and then holds
the last one. -/
lemma deadbandLoop_zero_main :
    ∀ (xs : List ℚ) (b : ℕ) (p : ℚ),
      deadbandLoop 0 0 p (some p) (xs.map some ++ List.replicate b none)
        = xs ++ List.replicate b (xs.getLastD p) := by
  intro xs
  induction xs with
  | nil =>
    intro b p
    cases b with
    | zero => rfl
    | succ b =>
      simp only [List.map_nil, List.nil_append, List.replicate_succ,
        deadbandLoop, Option.orElse, Option.getD, List.getLastD_nil]
      norm_num [deadbandLoop_zero_none b p]
  | cons y ys ih =>
    intro b p
    simp only [List.map_cons, List.cons_append, deadbandLoop, Option.orElse,
      Option.getD, List.getLastD_cons]
    by_cases hc : (0 : ℚ) < |0 + (y - p)|
    · rw [if_pos hc]
      have hs : jsSign (0 + (y - p)) * 0 = 0 := mul_zero _
      have ho : p + (0 + (y - p) - 0) = y := by ring
      rw [hs, ho]
      exact congrArg₂ List.cons rfl (ih b y)
    · rw [if_neg hc]
      have hy : y = p := by
        have := abs_nonneg (0 + (y - p))
        have h0 : |0 + (y - p)| = 0 := le_antisymm (not_lt.mp hc) this
        have := abs_eq_zero.mp h0
        linarith
      subst hy
      have h00 : (0 : ℚ) + (y - y) = 0 := by ring
      rw [h00]
      exact congrArg₂ List.cons rfl (ih b y)

/-- Forward-filling a tail of some-values followed by nulls. -/
lemma forwardFillQ_main :
    ∀ (xs : List ℚ) (b : ℕ) (x : ℚ),
      forwardFillQ (some x) (xs.map some ++ List.replicate b none)
        = xs.map some ++ List.replicate b (some (xs.getLastD x)) := by
  intro xs
  induction xs with
  | nil =>
    intro b x
    induction b with
    | zero => rfl
    | succ b ihb =>
      simp only [List.map_nil, List.nil_append, List.replicate_succ,
        forwardFillQ, List.getLastD_nil] at ihb ⊢
      rw [ihb]
  | cons y ys ih =>
    intro b x
    simp only [List.map_cons, List.cons_append, forwardFillQ,
      List.getLastD_cons]
    exact congrArg₂ List.cons rfl (ih b y)

/-- `findIdx isSome` on a block of leading nulls followed by a value. -/
lemma findIdx_isSome_replicate_none :
    ∀ (a : ℕ) (x : ℚ) (l : List (Option ℚ)),
      (List.replicate a none ++ some x :: l).findIdx
        (fun e : Option ℚ => e.isSome) = a := by
  intro a x l
  induction a with
  | zero => simp [List.findIdx_cons]
  | succ a ih =>
    simp only [List.replicate_succ, List.cons_append, List.findIdx_cons,
      Option.isSome_none, cond_false, ih]

/-- C4 (amended): with deadband `0` the filter passes the null-filled input
through exactly, provided nulls occur only as a leading prefix or a trailing
suffix (an interior null between two present values breaks pass-through). -/
theorem C4_deadband_zero_passthrough_amended (a b : ℕ) (x : ℚ) (xs : List ℚ) :
    cumulativeDeadbandFilter
        (List.replicate a none ++
          some x :: (xs.map some ++ List.replicate b none)) 0
      = fillNulls
          (List.replicate a none ++
            some x :: (xs.map some ++ List.replicate b none)) := by
  have hfind :=
    findIdx_isSome_replicate_none a x (xs.map some ++ List.replicate b none)
  have hdrop : (List.replicate a none ++
      some x :: (xs.map some ++ List.replicate b none)).drop a
      = some x :: (xs.map some ++ List.replicate b none) := by
    have := List.drop_left (List.replicate a none)
      (some x :: (xs.map some ++ List.replicate b none))
    rwa [List.length_replicate] at this
  simp only [cumulativeDeadbandFilter, fillNulls, hfind, hdrop,
    Option.getD_some]
  rw [deadbandLoop_zero_main xs b x, forwardFillQ_main xs b x,
    List.replicate_succ' a (some x)]
  simp [List.append_assoc, List.map_replicate]

/-- C4 (counterexample): with deadband `0` and an interior null, the filter
does not reproduce the null-filled input: on `[5, null, 9]` it outputs
`[5, 5, 5]` while the null-filled input is `[5, 5, 9]`. -/
theorem C4_counterexample_deadband_zero :
    cumulativeDeadbandFilter [some 5, none, some 9] 0 ≠
      fillNulls [some 5, none, some 9] := by
  have h1 : cumulativeDeadbandFilter [some 5, none, some 9] 0
      = [some 5, some 5, some 5] := by
    norm_num [cumulativeDeadbandFilter, deadbandLoop, jsSign, List.findIdx_cons]
  have h2 : fillNulls [some 5, none, some 9] = [some 5, some 5, some 9] := by
    norm_num [fillNulls, forwardFillQ, List.findIdx_cons]
  rw [h1, h2]
  simp

/-- C1: for every leg the composed total time is
`baseH * (1 + condPct/100) + stopsMin/60` (multiplicative condition markup on
the base moving time, then the flat stop offset), the very same formula at the
table-rendering site and the plan-serialization site, and at
`baseH = 2, stopsMin = 30, condPct = 10` it is exactly `2.7` hours. -/
theorem C1_leg_total_time_composition :
    (∀ baseH stopsMin condPct : ℚ,
        renderLegTotalH baseH stopsMin condPct
          = baseH * (1 + condPct / 100) + stopsMin / 60 ∧
        serializeLegTotalH baseH stopsMin condPct
          = renderLegTotalH baseH stopsMin condPct) ∧
    renderLegTotalH 2 30 10 = 27 / 10 ∧
    serializeLegTotalH 2 30 10 = 27 / 10 := by
  refine ⟨fun baseH stopsMin condPct => ⟨rfl, rfl⟩, by norm_num [renderLegTotalH], by
    norm_num [serializeLegTotalH]⟩

/-- C2: the per-step time of the calculate handler equals
`max(h, v) + 0.5 * min(h, v)` with `h = distKm / speedFlatKmh` and
`v = max(ascentM, descentM) / speedVertMh` (where `ascentM = max(dEle, 0)`
and `descentM = max(-dEle, 0)`), and the result is multiplied by
`downhillFactor` exactly when `descentM > 0` and `descentM ≥ ascentM`. -/
theorem C2_step_time_model (P : Params) (distKm dEleF : ℚ) :
    stepTimeH P distKm dEleF =
      (let h := distKm / P.speedFlatKmh
       let v := max (max dEleF 0) (max (-dEleF) 0) / P.speedVertMh
       let segTime := max h v + (0.5 : ℚ) * min h v
       if 0 < max (-dEleF) 0 ∧ max dEleF 0 ≤ max (-dEleF) 0 then
         segTime * P.downhillFactor
       else segTime) := by
  rcases lt_trichotomy dEleF 0 with hneg | hz | hpos
  · have h1 : ¬ (0 : ℚ) < dEleF := hneg.not_lt
    have h2 : (0 : ℚ) < -dEleF := neg_pos.mpr hneg
    have h3 : max dEleF 0 = 0 := max_eq_right hneg.le
    have h4 : max (-dEleF) 0 = -dEleF := max_eq_left h2.le
    simp [stepTimeH, stepAscentM, stepDescentM, hneg, h1, h2, h2.le, h3, h4]
  · subst hz
    simp [stepTimeH, stepAscentM, stepDescentM]
  · have h1 : ¬ dEleF < (0 : ℚ) := hpos.not_lt
    have h2 : ¬ (0 : ℚ) < -dEleF := by simpa using h1
    have h3 : max dEleF 0 = dEleF := max_eq_left hpos.le
    have h4 : max (-dEleF) 0 = 0 := max_eq_right (neg_nonpos.mpr hpos.le)
    simp [stepTimeH, stepAscentM, stepDescentM, hpos, h1, h2, h3, h4]

/-- C10: `ascentM` and `descentM` of a step come from one signed filtered
delta, so at most one of them is nonzero, and the downhill-discount condition
`descentM > 0 ∧ descentM ≥ ascentM` collapses to `descentM > 0`. -/
theorem C10_single_signed_delta (dEleF : ℚ) :
    (stepAscentM dEleF = 0 ∨ stepDescentM dEleF = 0) ∧
    ((0 < stepDescentM dEleF ∧ stepAscentM dEleF ≤ stepDescentM dEleF) ↔
      0 < stepDescentM dEleF) := by
  constructor
  · rcases le_or_lt dEleF 0 with h | h
    · exact Or.inl (by simp [stepAscentM, h.not_lt])
    · exact Or.inr (by simp [stepDescentM, h.not_lt, asymm h])
  · constructor
    · exact fun h => h.1
    · intro h
      refine ⟨h, ?_⟩
      have hneg : dEleF < 0 := by
        by_contra hc
        simp [stepDescentM, hc] at h
      simp [stepAscentM, stepDescentM, hneg, asymm hneg]
      linarith

/-- Adding a roadbook index never touches the trajectory, the break indices
or the cumulative arrays. -/
lemma addRoadbookIndex_preserves (s : CalcState) (i : ℕ) (label : String)
    (locked : Bool) :
    (addRoadbookIndex s i label locked).track = s.track ∧
    (addRoadbookIndex s i label locked).breakIdx = s.breakIdx ∧
    (addRoadbookIndex s i label locked).cumDistKm = s.cumDistKm ∧
    (addRoadbookIndex s i label locked).cumAscentM = s.cumAscentM ∧
    (addRoadbookIndex s i label locked).cumDescentM = s.cumDescentM ∧
    (addRoadbookIndex s i label locked).cumTimeH = s.cumTimeH := by
  simp only [addRoadbookIndex]
  split
  · split
    · exact ⟨rfl, rfl, rfl, rfl, rfl, rfl⟩
    · exact ⟨rfl, rfl, rfl, rfl, rfl, rfl⟩
  · exact ⟨rfl, rfl, rfl, rfl, rfl, rfl⟩

/-- Filling in a waypoint label never touches the trajectory, the break
indices or the cumulative arrays. -/
lemma setRoadbookLabel_preserves (s : CalcState) (idx : ℕ) (l : String) :
    (setRoadbookLabel s idx l).track = s.track ∧
    (setRoadbookLabel s idx l).breakIdx = s.breakIdx ∧
    (setRoadbookLabel s idx l).cumDistKm = s.cumDistKm ∧
    (setRoadbookLabel s idx l).cumAscentM = s.cumAscentM ∧
    (setRoadbookLabel s idx l).cumDescentM = s.cumDescentM ∧
    (setRoadbookLabel s idx l).cumTimeH = s.cumTimeH := by
  simp only [setRoadbookLabel]
  split
  · exact ⟨rfl, rfl, rfl, rfl, rfl, rfl⟩
  · exact ⟨rfl, rfl, rfl, rfl, rfl, rfl⟩

/-- Importing one GPX waypoint never touches the trajectory, the break
indices or the cumulative arrays. -/
lemma importWaypoint_preserves (H : Haversine) (s : CalcState)
    (wp : Waypoint) :
    (importWaypoint H s wp).track = s.track ∧
    (importWaypoint H s wp).breakIdx = s.breakIdx ∧
    (importWaypoint H s wp).cumDistKm = s.cumDistKm ∧
    (importWaypoint H s wp).cumAscentM = s.cumAscentM ∧
    (importWaypoint H s wp).cumDescentM = s.cumDescentM ∧
    (importWaypoint H s wp).cumTimeH = s.cumTimeH := by
  simp only [importWaypoint]
  split
  · exact addRoadbookIndex_preserves _ _ _ _
  · split
    · exact setRoadbookLabel_preserves _ _ _
    · exact ⟨rfl, rfl, rfl, rfl, rfl, rfl⟩

/-- Folding waypoint imports never touches the trajectory, the break indices
or the cumulative arrays. -/
lemma foldl_importWaypoint_preserves (H : Haversine) :
    ∀ (wps : List Waypoint) (s : CalcState),
    (wps.foldl (importWaypoint H) s).track = s.track ∧
    (wps.foldl (importWaypoint H) s).breakIdx = s.breakIdx ∧
    (wps.foldl (importWaypoint H) s).cumDistKm = s.cumDistKm ∧
    (wps.foldl (importWaypoint H) s).cumAscentM = s.cumAscentM ∧
    (wps.foldl (importWaypoint H) s).cumDescentM = s.cumDescentM ∧
    (wps.foldl (importWaypoint H) s).cumTimeH = s.cumTimeH := by
  intro wps
  induction wps with
  | nil => exact fun s => ⟨rfl, rfl, rfl, rfl, rfl, rfl⟩
  | cons wp wps ih =>
    intro s
    have h1 := importWaypoint_preserves H s wp
    have h2 := ih (importWaypoint H s wp)
    simp only [List.foldl_cons]
    exact ⟨h2.1.trans h1.1, h2.2.1.trans h1.2.1, h2.2.2.1.trans h1.2.2.1,
      h2.2.2.2.1.trans h1.2.2.2.1, h2.2.2.2.2.1.trans h1.2.2.2.2.1,
      h2.2.2.2.2.2.trans h1.2.2.2.2.2⟩

/-- C9: a parse that yields zero usable segments (malformed XML included)
only writes the empty-result message: every other field of the session state
— trajectory, break indices, cumulative arrays, waypoint and leg-override
maps — is exactly what it was before the run. -/
theorem C9_empty_parse_preserves_state (P : Params) (H : Haversine)
    (importRoadbooks : Bool) (waypoints : List Waypoint) (s : CalcState) :
    calcRun P H [] importRoadbooks waypoints s
      = { s with output := "<p>No track segments found.</p>" } := by
  simp [calcRun]

/-- C8: the code for removing the (non-locked) interior waypoint `5` of
`{0, 5, 9}` keeps the stop-minutes, condition-percent and criticality
overrides of the leg keyed `(0, 5)` — a key pair that includes the removed
index — although it does delete the custom leg label; the spec says all four
override kinds are deleted. -/
theorem C8_overrides_survive_removal :
    (removeRoadbook
      { track := [], breakIdx := [], cumDistKm := [], cumAscentM := [],
        cumDescentM := [], cumTimeH := [], roadbookIdx := [0, 5, 9],
        lockedIdx := [0, 9], roadbookLabels := [(5, "Col")],
        legLabels := [((0, 5), "Leg A")], legStopsMin := [((0, 5), 10)],
        legCondPct := [((0, 5), 20)], legCritical := [((0, 5), true)],
        output := "" } 5).legStopsMin = [((0, 5), 10)] ∧
    (removeRoadbook
      { track := [], breakIdx := [], cumDistKm := [], cumAscentM := [],
        cumDescentM := [], cumTimeH := [], roadbookIdx := [0, 5, 9],
        lockedIdx := [0, 9], roadbookLabels := [(5, "Col")],
        legLabels := [((0, 5), "Leg A")], legStopsMin := [((0, 5), 10)],
        legCondPct := [((0, 5), 20)], legCritical := [((0, 5), true)],
        output := "" } 5).legCondPct = [((0, 5), 20)] ∧
    (removeRoadbook
      { track := [], breakIdx := [], cumDistKm := [], cumAscentM := [],
        cumDescentM := [], cumTimeH := [], roadbookIdx := [0, 5, 9],
        lockedIdx := [0, 9], roadbookLabels := [(5, "Col")],
        legLabels := [((0, 5), "Leg A")], legStopsMin := [((0, 5), 10)],
        legCondPct := [((0, 5), 20)], legCritical := [((0, 5), true)],
        output := "" } 5).legCritical = [((0, 5), true)] ∧
    (removeRoadbook
      { track := [], breakIdx := [], cumDistKm := [], cumAscentM := [],
        cumDescentM := [], cumTimeH := [], roadbookIdx := [0, 5, 9],
        lockedIdx := [0, 9], roadbookLabels := [(5, "Col")],
        legLabels := [((0, 5), "Leg A")], legStopsMin := [((0, 5), 10)],
        legCondPct := [((0, 5), 20)], legCritical := [((0, 5), true)],
        output := "" } 5).legLabels = [] ∧
    (removeRoadbook
      { track := [], breakIdx := [], cumDistKm := [], cumAscentM := [],
        cumDescentM := [], cumTimeH := [], roadbookIdx := [0, 5, 9],
        lockedIdx := [0, 9], roadbookLabels := [(5, "Col")],
        legLabels := [((0, 5), "Leg A")], legStopsMin := [((0, 5), 10)],
        legCondPct := [((0, 5), 20)], legCritical := [((0, 5), true)],
        output := "" } 5).roadbookIdx = [0, 9] := by
  refine ⟨?_, ?_, ?_, ?_, ?_⟩ <;> norm_num [removeRoadbook, mapDelete]

/-! ### Resampler lemmas -/

/-- `getLastD` ignores its default on a non-empty list. -/
lemma getLastD_of_ne_nil {α : Type} {l : List α} (h : l ≠ []) (a b : α) :
    l.getLastD a = l.getLastD b := by
  cases l with
  | nil => exact absurd rfl h
  | cons x xs => rw [List.getLastD_cons, List.getLastD_cons]

/-- `getLastD` is the last entry of a non-empty list. -/
lemma getLastD_eq_getD_last {α : Type} {l : List α} (d : α) :
    l.getLastD d = l.getD (l.length - 1) d := by
  rw [List.getLastD_eq_getLast?, List.getLast?_eq_getElem?,
    List.getD_eq_getElem?_getD]

/-- The cumulative arc list has one entry per input point. -/
lemma cumArc_length (H : Haversine) (points : List TrackPoint)
    (h : points ≠ []) : (cumArc H points).length = points.length := by
  have h1 : 1 ≤ points.length := List.length_pos.mpr h
  simp only [cumArc, List.length_scanl, List.length_map, List.length_zip,
    List.length_tail]
  omega

/-- The cumulative arc list starts at `0`. -/
lemma cumArc_getD_zero (H : Haversine) (points : List TrackPoint) :
    (cumArc H points).getD 0 0 = 0 := by
  unfold cumArc
  cases (points.zip points.tail).map fun pq =>
      H.d pq.1.lat pq.1.lon pq.2.lat pq.2.lon * 1000 with
  | nil => simp [List.scanl_nil]
  | cons d l => simp [List.scanl_cons]

/-- The advance loop never moves `j` backwards. -/
lemma advanceJ_ge (cum : List ℚ) (t : ℚ) :
    ∀ fuel j, j ≤ advanceJ cum t fuel j := by
  intro fuel
  induction fuel with
  | zero => intro j; exact le_refl j
  | succ fuel ih =>
    intro j
    simp only [advanceJ]
    split
    · exact le_trans (Nat.le_succ j) (ih (j + 1))
    · exact le_refl j

/-- When the target does not exceed the final cumulative value, the advance
loop never moves past the final index. -/
lemma advanceJ_le_bound (cum : List ℚ) (t : ℚ)
    (ht : t ≤ cum.getD (cum.length - 1) 0) :
    ∀ fuel j, j ≤ cum.length - 1 → advanceJ cum t fuel j ≤ cum.length - 1 := by
  intro fuel
  induction fuel with
  | zero => intro j hj; exact hj
  | succ fuel ih =>
    intro j hj
    simp only [advanceJ]
    split
    · next hcond =>
      refine ih (j + 1) ?_
      rcases Nat.lt_or_ge j (cum.length - 1) with h | h
      · omega
      · exfalso
        have hje : j = cum.length - 1 := le_antisymm hj h
        rw [hje] at hcond
        exact absurd (lt_of_lt_of_le hcond.2 ht).false (by simp)
    · exact hj

/-- With strictly increasing cumulative values, advancing towards the final
total lands exactly on the final index. -/
lemma advanceJ_at_total (cum : List ℚ) (hcum : cum.Chain' (· < ·))
    (hn : 2 ≤ cum.length) :
    ∀ fuel j, 1 ≤ j → j ≤ cum.length - 1 → cum.length - 1 - j ≤ fuel →
      advanceJ cum (cum.getD (cum.length - 1) 0) fuel j = cum.length - 1 := by
  have hpair := (List.chain'_iff_pairwise.mp hcum)
  intro fuel
  induction fuel with
  | zero =>
    intro j h1 h2 h3
    have hj : j = cum.length - 1 := by omega
    subst hj
    rfl
  | succ fuel ih =>
    intro j h1 h2 h3
    by_cases hj : j = cum.length - 1
    · subst hj
      simp only [advanceJ]
      rw [if_neg]
      rintro ⟨-, hlt⟩
      exact hlt.false
    · have hjlt : j < cum.length - 1 := lt_of_le_of_ne h2 hj
      have hjlen : j < cum.length := by omega
      have hlast : cum.length - 1 < cum.length := by omega
      have hstrict : cum.getD j 0 < cum.getD (cum.length - 1) 0 := by
        rw [List.getD_eq_getElem cum 0 hjlen, List.getD_eq_getElem cum 0 hlast]
        exact (List.pairwise_iff_getElem.mp hpair) j (cum.length - 1)
          hjlen hlast hjlt
      simp only [advanceJ]
      rw [if_pos ⟨hjlen, hstrict⟩]
      exact ih (j + 1) (by omega) (by omega) (by omega)

/-- The resample loop emits exactly one point per target. -/
lemma resampleLoop_length (points : List TrackPoint) (cum : List ℚ) :
    ∀ ts j, (resampleLoop points cum j ts).length = ts.length := by
  intro ts
  induction ts with
  | nil => intro j; rfl
  | cons t ts ih =>
    intro j
    simp only [resampleLoop]
    split
    · simp [ih]
    · simp [ih]

/-- With strictly increasing cumulative values (one entry per point), all
elevations present and in-range targets ending at the exact total, the
resample loop's final output point is the final input point. -/
lemma resampleLoop_getLastD (points : List TrackPoint) (cum : List ℚ)
    (hlen : cum.length = points.length) (hn : 2 ≤ points.length)
    (hcum : cum.Chain' (· < ·))
    (hele : ∀ p ∈ points, p.ele.isSome = true) :
    ∀ ts j, 1 ≤ j → j ≤ cum.length - 1 →
      (∀ t ∈ ts, t ≤ cum.getD (cum.length - 1) 0) →
      (resampleLoop points cum j
        (ts ++ [cum.getD (cum.length - 1) 0])).getLastD default
        = points.getLastD default := by
  intro ts
  induction ts with
  | nil =>
    intro j hj1 hj2 _
    have hadv := advanceJ_at_total cum hcum (by omega) cum.length j hj1 hj2
      (by omega)
    simp only [List.nil_append, resampleLoop, hadv]
    rw [if_neg (by omega)]
    have hsub : cum.length - 1 - 1 = cum.length - 2 := by omega
    have h2len : cum.length - 2 < cum.length := by omega
    have h1len : cum.length - 1 < cum.length := by omega
    have hlt : cum.getD (cum.length - 2) 0 < cum.getD (cum.length - 1) 0 := by
      rw [List.getD_eq_getElem cum 0 h2len, List.getD_eq_getElem cum 0 h1len]
      exact (List.pairwise_iff_getElem.mp (List.chain'_iff_pairwise.mp hcum))
        _ _ h2len h1len (by omega)
    have hdenom : ¬ (cum.getD (cum.length - 1) 0 - cum.getD (cum.length - 2) 0
        = 0) := sub_ne_zero.mpr hlt.ne'
    have h2lenp : cum.length - 2 < points.length := by omega
    have h1lenp : cum.length - 1 < points.length := by omega
    obtain ⟨e0, he0⟩ := Option.isSome_iff_exists.mp
      (hele (points.getD (cum.length - 2) default)
        (by rw [List.getD_eq_getElem points default h2lenp]
            exact List.getElem_mem h2lenp))
    obtain ⟨e1, he1⟩ := Option.isSome_iff_exists.mp
      (hele (points.getD (cum.length - 1) default)
        (by rw [List.getD_eq_getElem points default h1lenp]
            exact List.getElem_mem h1lenp))
    have ha : clamp ((cum.getD (cum.length - 1) 0 - cum.getD (cum.length - 2) 0)
        / (cum.getD (cum.length - 1) 0 - cum.getD (cum.length - 2) 0)) 0 1
        = 1 := by
      rw [div_self hdenom]
      norm_num [clamp]
    rw [hsub, if_neg hdenom, ha, he0, he1]
    have hlast : points.getLastD default
        = points.getD (points.length - 1) default := getLastD_eq_getD_last _
    rw [List.getLastD_cons, List.getLastD_nil, hlast, ← hlen]
    conv_rhs => rw [show points.getD (cum.length - 1) default
      = ⟨(points.getD (cum.length - 1) default).lat,
         (points.getD (cum.length - 1) default).lon,
         (points.getD (cum.length - 1) default).ele⟩ from rfl]
    rw [he1]
    simp only [TrackPoint.mk.injEq]
    refine ⟨by ring, by ring, ?_⟩
    exact congrArg some (by ring)
  | cons t ts ih =>
    intro j hj1 hj2 hts
    have ht : t ≤ cum.getD (cum.length - 1) 0 := hts t (by simp)
    have hts' : ∀ u ∈ ts, u ≤ cum.getD (cum.length - 1) 0 := fun u hu =>
      hts u (by simp [hu])
    have hj1' : 1 ≤ advanceJ cum t cum.length j :=
      le_trans hj1 (advanceJ_ge cum t _ j)
    have hj2' : advanceJ cum t cum.length j ≤ cum.length - 1 :=
      advanceJ_le_bound cum t ht cum.length j hj2
    have hne : resampleLoop points cum (advanceJ cum t cum.length j)
        (ts ++ [cum.getD (cum.length - 1) 0]) ≠ [] := by
      intro hnil
      have hL := resampleLoop_length points cum
        (ts ++ [cum.getD (cum.length - 1) 0]) (advanceJ cum t cum.length j)
      rw [hnil] at hL
      simp at hL
    simp only [List.cons_append, resampleLoop]
    split
    · rw [List.getLastD_cons]
      exact (getLastD_of_ne_nil hne _ default).trans (ih _ hj1' hj2' hts')
    · rw [List.getLastD_cons]
      exact (getLastD_of_ne_nil hne _ default).trans (ih _ hj1' hj2' hts')

/-- The last entry of a non-empty list as an option. -/
lemma getLast?_eq_some_getLastD {α : Type} {l : List α} (h : l ≠ []) (d : α) :
    l.getLast? = some (l.getLastD d) := by
  cases hl : l.getLast? with
  | none => exact absurd (List.getLast?_eq_none_iff.mp hl) h
  | some a => rw [List.getLastD_eq_getLast?, hl]; rfl

/-- If the current cumulative value is already at or past the target, the
advance loop does not move. -/
lemma advanceJ_stay (cum : List ℚ) (t : ℚ) (j : ℕ)
    (h : ¬ cum.getD j 0 < t) : ∀ fuel, advanceJ cum t fuel j = j := by
  intro fuel
  cases fuel with
  | zero => rfl
  | succ fuel =>
    simp only [advanceJ]
    rw [if_neg]
    rintro ⟨-, hlt⟩
    exact h hlt

/-- Structure of the emitted target list for a positive spacing and a
positive total: it starts at `0`, every entry is at most the total, the last
entry is exactly the total, and all entries but the last are the successive
multiples of the spacing. -/
lemma resampleTargetsFull_structure (spacingM total : ℚ) (hsp : 0 < spacingM)
    (htot : 0 < total) :
    (resampleTargetsFull spacingM total).getLast? = some total ∧
    (resampleTargetsFull spacingM total).dropLast
      = (List.range ((resampleTargetsFull spacingM total).length - 1)).map
          (fun k : ℕ => (k : ℚ) * spacingM) ∧
    (resampleTargetsFull spacingM total).head? = some 0 ∧
    (∀ t ∈ resampleTargetsFull spacingM total, t ≤ total) := by
  have hts : resampleTargets spacingM total
      = (List.range (⌊total / spacingM⌋.toNat + 1)).map
          (fun k : ℕ => (k : ℚ) * spacingM) := by
    rw [resampleTargets, if_neg (not_lt.mpr htot.le)]
  have hsplit : resampleTargets spacingM total
      = (List.range ⌊total / spacingM⌋.toNat).map (fun k : ℕ => (k : ℚ) * spacingM)
        ++ [(⌊total / spacingM⌋.toNat : ℚ) * spacingM] := by
    rw [hts, List.range_succ, List.map_append, List.map_cons, List.map_nil]
  have hfl : (0 : ℤ) ≤ ⌊total / spacingM⌋ :=
    Int.floor_nonneg.mpr (le_of_lt (div_pos htot hsp))
  have hKle : (⌊total / spacingM⌋.toNat : ℚ) * spacingM ≤ total := by
    have h1 : ((⌊total / spacingM⌋.toNat : ℤ) : ℚ) = ((⌊total / spacingM⌋ : ℤ) : ℚ) := by
      rw [Int.toNat_of_nonneg hfl]
    have h2 : ((⌊total / spacingM⌋.toNat : ℕ) : ℚ) ≤ total / spacingM := by
      push_cast at h1 ⊢
      rw [h1]
      exact Int.floor_le _
    exact (le_div_iff₀ hsp).mp h2
  have hlastD : (resampleTargets spacingM total).getLastD 0
      = (⌊total / spacingM⌋.toNat : ℚ) * spacingM := by
    rw [hsplit, List.getLastD_eq_getLast?, List.getLast?_concat]; rfl
  have hmemle : ∀ t ∈ resampleTargets spacingM total, t ≤ total := by
    intro t htmem
    rw [hts] at htmem
    obtain ⟨k, hk, rfl⟩ := List.mem_map.mp htmem
    have hkK : k ≤ ⌊total / spacingM⌋.toNat := by
      have := List.mem_range.mp hk
      omega
    calc (k : ℚ) * spacingM
        ≤ (⌊total / spacingM⌋.toNat : ℚ) * spacingM := by
          exact mul_le_mul_of_nonneg_right (by exact_mod_cast hkK) hsp.le
      _ ≤ total := hKle
  have hhead : (resampleTargets spacingM total).head? = some 0 := by
    rw [hts, List.range_succ_eq_map, List.map_cons]
    simp
  have hne : resampleTargets spacingM total ≠ [] := by
    rw [hts]
    simp
  rw [resampleTargetsFull]
  by_cases hlt : (resampleTargets spacingM total).getLastD 0 < total
  · rw [if_pos hlt]
    refine ⟨List.getLast?_concat _, ?_, ?_, ?_⟩
    · rw [List.dropLast_concat, List.length_append, List.length_singleton, hts]
      simp
    · rw [List.head?_append_of_ne_nil _ hne, hhead]
    · intro t htmem
      rcases List.mem_append.mp htmem with h | h
      · exact hmemle t h
      · rw [List.mem_singleton.mp h]
  · rw [if_neg hlt]
    have heq : (⌊total / spacingM⌋.toNat : ℚ) * spacingM = total := by
      rw [hlastD] at hlt
      exact le_antisymm hKle (not_lt.mp hlt)
    refine ⟨?_, ?_, hhead, hmemle⟩
    · rw [hsplit, List.getLast?_concat, heq]
    · rw [hsplit, List.dropLast_concat, List.length_append,
        List.length_singleton]
      simp

/-- The first emitted point for the target `0` (with the loop state starting
at `j = 1`) is the first input point. -/
lemma resampleLoop_head (points : List TrackPoint) (cum : List ℚ)
    (hlen : cum.length = points.length) (hn : 2 ≤ points.length)
    (hcum : cum.Chain' (· < ·)) (h0 : cum.getD 0 0 = 0)
    (hele : ∀ p ∈ points, p.ele.isSome = true) (ts : List ℚ) :
    (resampleLoop points cum 1 ((0 : ℚ) :: ts)).head? = points.head? := by
  have h1len : 1 < cum.length := by omega
  have h0len : 0 < cum.length := by omega
  have hc1 : (0 : ℚ) < cum.getD 1 0 := by
    have := (List.pairwise_iff_getElem.mp (List.chain'_iff_pairwise.mp hcum))
      0 1 h0len h1len (by omega)
    rw [List.getD_eq_getElem cum 0 h1len]
    rw [List.getD_eq_getElem cum 0 h0len] at h0
    rw [← h0]
    exact this
  have hadv : advanceJ cum 0 cum.length 1 = 1 :=
    advanceJ_stay cum 0 1 (not_lt.mpr hc1.le) cum.length
  simp only [resampleLoop, hadv]
  rw [if_neg (by omega)]
  have h0p : 0 < points.length := by omega
  obtain ⟨e0, he0⟩ := Option.isSome_iff_exists.mp
    (hele (points.getD 0 default)
      (by rw [List.getD_eq_getElem points default (by omega)]
          exact List.getElem_mem (by omega)))
  obtain ⟨e1, he1⟩ := Option.isSome_iff_exists.mp
    (hele (points.getD 1 default)
      (by rw [List.getD_eq_getElem points default (by omega)]
          exact List.getElem_mem (by omega)))
  have hdenom : ¬ (cum.getD 1 0 - cum.getD 0 0 = 0) := by
    rw [h0, sub_zero]
    exact hc1.ne'
  have ha : clamp ((0 - cum.getD 0 0) / (cum.getD 1 0 - cum.getD 0 0)) 0 1
      = 0 := by
    rw [h0, sub_zero, sub_zero, zero_div]
    norm_num [clamp]
  simp only [Nat.sub_self, if_neg hdenom, ha, he0, he1, List.head?_cons]
  rw [List.head?_eq_getElem?, List.getElem?_eq_getElem h0p]
  refine congrArg some ?_
  conv_rhs => rw [show points[0] = ⟨points[0].lat, points[0].lon, points[0].ele⟩
    from rfl]
  have hgd : points.getD 0 default = points[0] :=
    List.getD_eq_getElem points default h0p
  rw [← hgd, he0]
  simp only [TrackPoint.mk.injEq]
  exact ⟨by ring, by ring, congrArg some (by ring)⟩

/-- C7 (amended): with spacing `> 0`, a zero total arc length returns at
most the first two input points unchanged; and for an input of at least two
points whose cumulative arc lengths strictly increase (every consecutive
pair at positive distance) and whose elevations are all present, the emitted
targets are `0, spacingM, 2·spacingM, …` with the last target the exact
total, the output has one point per target, and the first and last output
points coincide with the first and last input points.  (Without the strict
increase the final points need not coincide — see the counterexample.) -/
theorem C7_resampler_targets_amended (H : Haversine)
    (points : List TrackPoint) (spacingM : ℚ) (hsp : 0 < spacingM) :
    ((cumArc H points).getLastD 0 = 0 →
      resampleByDistance H points spacingM = points.take 2) ∧
    (2 ≤ points.length → (cumArc H points).Chain' (· < ·) →
      (∀ p ∈ points, p.ele.isSome = true) →
      (resampleTargetsFull spacingM ((cumArc H points).getLastD 0)).getLast?
          = some ((cumArc H points).getLastD 0) ∧
      (resampleTargetsFull spacingM ((cumArc H points).getLastD 0)).dropLast
          = (List.range ((resampleTargetsFull spacingM
              ((cumArc H points).getLastD 0)).length - 1)).map
              (fun k : ℕ => (k : ℚ) * spacingM) ∧
      (resampleByDistance H points spacingM).length
          = (resampleTargetsFull spacingM
              ((cumArc H points).getLastD 0)).length ∧
      (resampleByDistance H points spacingM).head? = points.head? ∧
      (resampleByDistance H points spacingM).getLast? = points.getLast?) := by
  constructor
  · intro h0
    rw [resampleByDistance, if_pos h0]
  · intro hn hcum hele
    have hple : points ≠ [] := by
      intro h; rw [h] at hn; simp at hn
    have hclen : (cumArc H points).length = points.length :=
      cumArc_length H points hple
    have hcne : cumArc H points ≠ [] := by
      intro h
      rw [h] at hclen
      simp at hclen
      omega
    have hc0 : (cumArc H points).getD 0 0 = 0 := cumArc_getD_zero H points
    have h0len : 0 < (cumArc H points).length := by omega
    have hlastlt : (cumArc H points).length - 1 < (cumArc H points).length := by
      omega
    have htot : 0 < (cumArc H points).getLastD 0 := by
      rw [getLastD_eq_getD_last]
      rw [List.getD_eq_getElem _ 0 hlastlt]
      rw [List.getD_eq_getElem _ 0 h0len] at hc0
      rw [← hc0]
      exact (List.pairwise_iff_getElem.mp (List.chain'_iff_pairwise.mp hcum))
        0 _ h0len hlastlt (by omega)
    obtain ⟨hlast, hdrop, hhead, hbound⟩ :=
      resampleTargetsFull_structure spacingM ((cumArc H points).getLastD 0)
        hsp htot
    have hnz : ¬ ((cumArc H points).getLastD 0 = 0) := htot.ne'
    have hrw : resampleByDistance H points spacingM
        = resampleLoop points (cumArc H points) 1
            (resampleTargetsFull spacingM ((cumArc H points).getLastD 0)) := by
      rw [resampleByDistance, if_neg hnz]
    refine ⟨hlast, hdrop, ?_, ?_, ?_⟩
    · rw [hrw]
      exact resampleLoop_length _ _ _ _
    · obtain ⟨ts', hts'⟩ : ∃ ts',
          resampleTargetsFull spacingM ((cumArc H points).getLastD 0)
            = (0 : ℚ) :: ts' := by
        cases hfull : resampleTargetsFull spacingM
            ((cumArc H points).getLastD 0) with
        | nil => rw [hfull] at hhead; simp at hhead
        | cons t0 rest =>
          rw [hfull, List.head?_cons] at hhead
          exact ⟨rest, by rw [Option.some_inj.mp hhead.symm]⟩
      rw [hrw, hts']
      exact resampleLoop_head points (cumArc H points) hclen hn hcum hc0 hele ts'
    · obtain ⟨ys, hys⟩ := List.getLast?_eq_some_iff.mp hlast
      have hysle : ∀ t ∈ ys, t ≤ (cumArc H points).getLastD 0 := by
        intro t htm
        exact hbound t (by rw [hys]; exact List.mem_append.mpr (Or.inl htm))
      have houtne : resampleByDistance H points spacingM ≠ [] := by
        rw [hrw, hys]
        intro h
        have hL := resampleLoop_length points (cumArc H points)
          (ys ++ [(cumArc H points).getLastD 0]) 1
        rw [h] at hL
        simp at hL
      have hgd : (cumArc H points).getLastD 0
          = (cumArc H points).getD ((cumArc H points).length - 1) 0 :=
        getLastD_eq_getD_last 0
      have hmain := resampleLoop_getLastD points (cumArc H points) hclen hn
        hcum hele ys 1 (le_refl 1) (by omega)
        (fun t htm => by rw [← hgd]; exact hysle t htm)
      rw [getLast?_eq_some_getLastD houtne default,
        getLast?_eq_some_getLastD hple default]
      refine congrArg some ?_
      rw [hrw, hys, hgd]
      exact hmain

/-- C7 (counterexample): a segment of positive total arc length whose last
two points sit at identical coordinates but different elevations (haversine
distance exactly `0`).  The resampler's final output point is the
interpolation stopping at the earlier bracketing point, which differs from
the final input point, contradicting "the last output point coincides with
the last input point". -/
theorem C7_counterexample_last_point :
    0 < (cumArc havSq
        [⟨0, 0, some 0⟩, ⟨1/1000, 0, some 0⟩, ⟨1/1000, 0, some 100⟩]).getLastD 0 ∧
    (resampleByDistance havSq
        [⟨0, 0, some 0⟩, ⟨1/1000, 0, some 0⟩, ⟨1/1000, 0, some 100⟩] 1).getLast?
      ≠ ([⟨0, 0, some 0⟩, ⟨1/1000, 0, some 0⟩, ⟨1/1000, 0, some 100⟩]
          : List TrackPoint).getLast? := by
  constructor
  · norm_num [cumArc, havSq, List.scanl]
  · have h : resampleByDistance havSq
        [⟨0, 0, some 0⟩, ⟨1/1000, 0, some 0⟩, ⟨1/1000, 0, some 100⟩] 1
        = [⟨0, 0, some 0⟩, ⟨1/1000, 0, some 0⟩] := by
      norm_num [resampleByDistance, cumArc, havSq, List.scanl,
        resampleTargetsFull, resampleTargets, List.range_succ, resampleLoop,
        advanceJ, clamp]
    rw [h]
    simp

/-- C7 (witness): the amended resampler theorem applied to a concrete
two-point segment at strictly positive distance with elevations present. -/
theorem C7_witness :
    (0 : ℚ) < 1 ∧
    2 ≤ ([⟨0, 0, some 10⟩, ⟨1/1000, 0, some 20⟩] : List TrackPoint).length ∧
    (cumArc havSq [⟨0, 0, some 10⟩, ⟨1/1000, 0, some 20⟩]).Chain' (· < ·) ∧
    (∀ p ∈ ([⟨0, 0, some 10⟩, ⟨1/1000, 0, some 20⟩] : List TrackPoint),
      p.ele.isSome = true) ∧
    ((resampleTargetsFull 1 ((cumArc havSq
          [⟨0, 0, some 10⟩, ⟨1/1000, 0, some 20⟩]).getLastD 0)).getLast?
        = some ((cumArc havSq
            [⟨0, 0, some 10⟩, ⟨1/1000, 0, some 20⟩]).getLastD 0) ∧
      (resampleTargetsFull 1 ((cumArc havSq
          [⟨0, 0, some 10⟩, ⟨1/1000, 0, some 20⟩]).getLastD 0)).dropLast
        = (List.range ((resampleTargetsFull 1 ((cumArc havSq
            [⟨0, 0, some 10⟩, ⟨1/1000, 0, some 20⟩]).getLastD 0)).length
              - 1)).map (fun k : ℕ => (k : ℚ) * 1) ∧
      (resampleByDistance havSq
          [⟨0, 0, some 10⟩, ⟨1/1000, 0, some 20⟩] 1).length
        = (resampleTargetsFull 1 ((cumArc havSq
            [⟨0, 0, some 10⟩, ⟨1/1000, 0, some 20⟩]).getLastD 0)).length ∧
      (resampleByDistance havSq
          [⟨0, 0, some 10⟩, ⟨1/1000, 0, some 20⟩] 1).head?
        = ([⟨0, 0, some 10⟩, ⟨1/1000, 0, some 20⟩]
            : List TrackPoint).head? ∧
      (resampleByDistance havSq
          [⟨0, 0, some 10⟩, ⟨1/1000, 0, some 20⟩] 1).getLast?
        = ([⟨0, 0, some 10⟩, ⟨1/1000, 0, some 20⟩]
            : List TrackPoint).getLast?) := by
  have h2 : 2 ≤ ([⟨0, 0, some 10⟩, ⟨1/1000, 0, some 20⟩]
      : List TrackPoint).length := by simp
  have hch : (cumArc havSq
      [⟨0, 0, some 10⟩, ⟨1/1000, 0, some 20⟩]).Chain' (· < ·) := by
    norm_num [cumArc, havSq, List.scanl, List.chain'_cons]
  have hele : ∀ p ∈ ([⟨0, 0, some 10⟩, ⟨1/1000, 0, some 20⟩]
      : List TrackPoint), p.ele.isSome = true := by
    intro p hp
    rcases List.mem_cons.mp hp with rfl | hp
    · rfl
    rcases List.mem_cons.mp hp with rfl | hp
    · rfl
    · simp at hp
  exact ⟨by norm_num, h2, hch, hele,
    (C7_resampler_targets_amended havSq
      [⟨0, 0, some 10⟩, ⟨1/1000, 0, some 20⟩] 1 (by norm_num)).2 h2 hch hele⟩

/-! ### Length and sign lemmas for the accumulation loop -/

/-- The median filter preserves length. -/
lemma medianFilter_length (arr : List (Option ℚ)) (win : ℕ) :
    (medianFilter arr win).length = arr.length := by
  unfold medianFilter
  split
  · rfl
  · simp

/-- The deadband loop emits one output per remaining sample. -/
lemma deadbandLoop_length (db : ℚ) :
    ∀ (l : List (Option ℚ)) (c o : ℚ) (ep : Option ℚ),
      (deadbandLoop db c o ep l).length = l.length := by
  intro l
  induction l with
  | nil => intro c o ep; rfl
  | cons e rest ih =>
    intro c o ep
    simp only [deadbandLoop]
    split
    · simp [ih]
    · simp [ih]

/-- The deadband filter preserves length. -/
lemma cumulativeDeadbandFilter_length (elev : List (Option ℚ)) (db : ℚ) :
    (cumulativeDeadbandFilter elev db).length = elev.length := by
  simp only [cumulativeDeadbandFilter]
  cases hdrop : elev.drop (elev.findIdx fun x => x.isSome) with
  | nil => rfl
  | cons e0 rest =>
    have hlen := List.length_drop (elev.findIdx fun x => x.isSome) elev
    rw [hdrop] at hlen
    have hle : (elev.findIdx fun x => x.isSome) ≤ elev.length :=
      List.findIdx_le_length _
    simp only [List.length_cons] at hlen
    simp only [List.length_append, List.length_replicate, List.length_map,
      deadbandLoop_length]
    omega

/-- The per-segment step list has one entry per consecutive point pair. -/
lemma stepDeltas_length (P : Params) (H : Haversine)
    (resampled : List TrackPoint) (elevFiltered : List (Option ℚ))
    (hf : elevFiltered.length = resampled.length)
    (hn : 1 ≤ resampled.length) :
    (stepDeltas P H resampled elevFiltered).length = resampled.length - 1 := by
  have h1 := List.length_zip resampled resampled.tail
  have h2 := List.length_zip elevFiltered elevFiltered.tail
  have h3 := List.length_zip (resampled.zip resampled.tail)
    (elevFiltered.zip elevFiltered.tail)
  rw [stepDeltas, List.length_map, h3, h1, h2, List.length_tail,
    List.length_tail, hf]
  omega

/-- Closed form of the step time: the nested `vMag`/`v` conditionals
collapse to a single max-based vertical time, with one downhill test. -/
lemma stepTimeH_spec_form (P : Params) (distKm dEleF : ℚ) :
    stepTimeH P distKm dEleF =
      if 0 < max (-dEleF) 0 ∧ max dEleF 0 ≤ max (-dEleF) 0 then
        (max (distKm / P.speedFlatKmh)
            (max (max dEleF 0) (max (-dEleF) 0) / P.speedVertMh)
          + (0.5 : ℚ) * min (distKm / P.speedFlatKmh)
            (max (max dEleF 0) (max (-dEleF) 0) / P.speedVertMh))
          * P.downhillFactor
      else
        max (distKm / P.speedFlatKmh)
            (max (max dEleF 0) (max (-dEleF) 0) / P.speedVertMh)
          + (0.5 : ℚ) * min (distKm / P.speedFlatKmh)
            (max (max dEleF 0) (max (-dEleF) 0) / P.speedVertMh) := by
  rcases lt_trichotomy dEleF 0 with hneg | hz | hpos
  · have h1 : ¬ (0 : ℚ) < dEleF := hneg.not_lt
    have h2 : (0 : ℚ) < -dEleF := neg_pos.mpr hneg
    have h3 : max dEleF 0 = 0 := max_eq_right hneg.le
    have h4 : max (-dEleF) 0 = -dEleF := max_eq_left h2.le
    simp [stepTimeH, stepAscentM, stepDescentM, hneg, h1, h2, h2.le, h3, h4]
  · subst hz
    simp [stepTimeH, stepAscentM, stepDescentM]
  · have h1 : ¬ dEleF < (0 : ℚ) := hpos.not_lt
    have h2 : ¬ (0 : ℚ) < -dEleF := by simpa using h1
    have h3 : max dEleF 0 = dEleF := max_eq_left hpos.le
    have h4 : max (-dEleF) 0 = 0 := max_eq_right (neg_nonpos.mpr hpos.le)
    simp [stepTimeH, stepAscentM, stepDescentM, hpos, h1, h2, h3, h4]

/-- The step time is non-negative for non-negative distance and positive
pace parameters. -/
lemma stepTimeH_nonneg (P : Params) (hsf : 0 < P.speedFlatKmh)
    (hsv : 0 < P.speedVertMh) (hdf : 0 < P.downhillFactor)
    (distKm dEleF : ℚ) (hd : 0 ≤ distKm) :
    0 ≤ stepTimeH P distKm dEleF := by
  have hh : 0 ≤ distKm / P.speedFlatKmh := div_nonneg hd hsf.le
  have hv : 0 ≤ max (max dEleF 0) (max (-dEleF) 0) / P.speedVertMh :=
    div_nonneg (le_trans (le_max_right dEleF 0) (le_max_left _ _)) hsv.le
  have key : 0 ≤ max (distKm / P.speedFlatKmh)
        (max (max dEleF 0) (max (-dEleF) 0) / P.speedVertMh)
      + (0.5 : ℚ) * min (distKm / P.speedFlatKmh)
        (max (max dEleF 0) (max (-dEleF) 0) / P.speedVertMh) :=
    add_nonneg (le_trans hh (le_max_left _ _))
      (mul_nonneg (by norm_num) (le_min hh hv))
  rw [stepTimeH_spec_form]
  split_ifs
  · exact mul_nonneg key hdf.le
  · exact key

/-- `stepAscentM` is non-negative. -/
lemma stepAscentM_nonneg (x : ℚ) : 0 ≤ stepAscentM x := by
  unfold stepAscentM
  split
  · linarith
  · exact le_refl 0

/-- `stepDescentM` is non-negative. -/
lemma stepDescentM_nonneg (x : ℚ) : 0 ≤ stepDescentM x := by
  unfold stepDescentM
  split
  · linarith
  · exact le_refl 0

/-- All four per-step quantities are non-negative. -/
lemma stepVals_nonneg (P : Params) (H : Haversine) (hsf : 0 < P.speedFlatKmh)
    (hsv : 0 < P.speedVertMh) (hdf : 0 < P.downhillFactor)
    (pp : TrackPoint × TrackPoint) (ff : Option ℚ × Option ℚ) :
    0 ≤ (stepVals P H pp ff).distKm ∧ 0 ≤ (stepVals P H pp ff).ascentM ∧
    0 ≤ (stepVals P H pp ff).descentM ∧ 0 ≤ (stepVals P H pp ff).segTimeH := by
  have hd : 0 ≤ H.d pp.1.lat pp.1.lon pp.2.lat pp.2.lon := H.nonneg _ _ _ _
  have hp1 : (stepVals P H pp ff).distKm
      = H.d pp.1.lat pp.1.lon pp.2.lat pp.2.lon := rfl
  have hp2 : (stepVals P H pp ff).ascentM
      = stepAscentM (stepDEleF ff.1 ff.2) := rfl
  have hp3 : (stepVals P H pp ff).descentM
      = stepDescentM (stepDEleF ff.1 ff.2) := rfl
  have hp4 : (stepVals P H pp ff).segTimeH
      = stepTimeH P (H.d pp.1.lat pp.1.lon pp.2.lat pp.2.lon)
          (stepDEleF ff.1 ff.2) := rfl
  rw [hp1, hp2, hp3, hp4]
  exact ⟨hd, stepAscentM_nonneg _, stepDescentM_nonneg _,
    stepTimeH_nonneg P hsf hsv hdf _ _ hd⟩

/-- Appending a value at least the last entry keeps a list monotone
non-decreasing. -/
lemma chain'_append_of_last_le {l : List ℚ} (hch : l.Chain' (· ≤ ·)) (x : ℚ)
    (hx : l.getLastD 0 ≤ x) : (l ++ [x]).Chain' (· ≤ ·) := by
  rw [List.chain'_append]
  refine ⟨hch, List.chain'_singleton x, ?_⟩
  intro a ha y hy
  simp only [List.head?_cons, Option.mem_def, Option.some_inj] at hy
  subst hy
  have : l.getLastD 0 = a := by
    rw [List.getLastD_eq_getLast?, Option.mem_def.mp ha]
    rfl
  rw [← this]
  exact hx

/-- The single-array accumulation fold: length, head, monotonicity and
non-emptiness. -/
lemma pushFold_invariant :
    ∀ (δs : List ℚ) (l : List ℚ), l ≠ [] →
      (List.foldl (fun acc δ => acc ++ [acc.getLastD 0 + δ]) l δs) ≠ [] ∧
      (List.foldl (fun acc δ => acc ++ [acc.getLastD 0 + δ]) l δs).length
        = l.length + δs.length ∧
      (List.foldl (fun acc δ => acc ++ [acc.getLastD 0 + δ]) l δs).head?
        = l.head? ∧
      ((∀ δ ∈ δs, 0 ≤ δ) → l.Chain' (· ≤ ·) →
        (List.foldl (fun acc δ => acc ++ [acc.getLastD 0 + δ]) l δs).Chain'
          (· ≤ ·)) := by
  intro δs
  induction δs with
  | nil => exact fun l hl => ⟨hl, by simp, rfl, fun _ hch => hch⟩
  | cons δ δs ih =>
    intro l hl
    have hne : l ++ [l.getLastD 0 + δ] ≠ [] := by simp
    obtain ⟨ih1, ih2, ih3, ih4⟩ := ih (l ++ [l.getLastD 0 + δ]) hne
    simp only [List.foldl_cons]
    refine ⟨ih1, ?_, ?_, ?_⟩
    · rw [ih2]
      simp
      omega
    · rw [ih3, List.head?_append_of_ne_nil _ hl]
    · intro hδ hch
      refine ih4 (fun u hu => hδ u (List.mem_cons_of_mem δ hu)) ?_
      refine chain'_append_of_last_le hch _ ?_
      have h0 : 0 ≤ δ := hδ δ (List.mem_cons_self δ δs)
      linarith

/-- The fold is only ever extended: the original list is a prefix. -/
lemma pushFold_extends :
    ∀ (δs : List ℚ) (l : List ℚ),
      l <+: List.foldl (fun acc δ => acc ++ [acc.getLastD 0 + δ]) l δs := by
  intro δs
  induction δs with
  | nil => exact fun l => List.prefix_refl l
  | cons δ δs ih =>
    intro l
    simp only [List.foldl_cons]
    exact List.IsPrefix.trans (List.prefix_append l _) (ih _)

/-- Projections of the four-array step fold: each cumulative array folds on
its own, and all other fields are untouched. -/
lemma foldl_pushStep_proj :
    ∀ (δs : List StepVals) (s : CalcState),
      (δs.foldl pushStep s).cumDistKm
        = List.foldl (fun acc δ => acc ++ [acc.getLastD 0 + δ]) s.cumDistKm
            (δs.map fun sv => sv.distKm) ∧
      (δs.foldl pushStep s).cumAscentM
        = List.foldl (fun acc δ => acc ++ [acc.getLastD 0 + δ]) s.cumAscentM
            (δs.map fun sv => sv.ascentM) ∧
      (δs.foldl pushStep s).cumDescentM
        = List.foldl (fun acc δ => acc ++ [acc.getLastD 0 + δ]) s.cumDescentM
            (δs.map fun sv => sv.descentM) ∧
      (δs.foldl pushStep s).cumTimeH
        = List.foldl (fun acc δ => acc ++ [acc.getLastD 0 + δ]) s.cumTimeH
            (δs.map fun sv => sv.segTimeH) ∧
      (δs.foldl pushStep s).track = s.track ∧
      (δs.foldl pushStep s).breakIdx = s.breakIdx := by
  intro δs
  induction δs with
  | nil => exact fun s => ⟨rfl, rfl, rfl, rfl, rfl, rfl⟩
  | cons sv δs ih =>
    intro s
    simpa only [List.foldl_cons, List.map_cons] using ih (pushStep s sv)

/-- Appending a usable segment's data preserves the cumulative-array
well-formedness, the arrays growing in lockstep with the trajectory. -/
lemma appendSegData_CumOK (s : CalcState) (resampled : List TrackPoint)
    (δs : List StepVals) (hds : δs.length = resampled.length - 1)
    (hres : 2 ≤ resampled.length)
    (hpos : ∀ sv ∈ δs, 0 ≤ sv.distKm ∧ 0 ≤ sv.ascentM ∧ 0 ≤ sv.descentM ∧
      0 ≤ sv.segTimeH)
    (hInv : CumOK s) : CumOK (appendSegData s resampled δs) := by
  obtain ⟨q1, q2, q3, q4, r1, r2, r3, r4, m1, m2, m3, m4⟩ := hInv
  have hseam : ∀ l : List ℚ, l.head? = some 0 → l.Chain' (· ≤ ·) →
      ((if 0 < s.track.length then l ++ [l.getLastD 0] else l) ≠ [] ∧
       (if 0 < s.track.length then l ++ [l.getLastD 0] else l).head?
          = some 0 ∧
       (if 0 < s.track.length then l ++ [l.getLastD 0] else l).Chain'
          (· ≤ ·) ∧
       (if 0 < s.track.length then l ++ [l.getLastD 0] else l).length
          = l.length + (if 0 < s.track.length then 1 else 0)) := by
    intro l hh hch
    have hne : l ≠ [] := by
      intro h
      rw [h] at hh
      simp at hh
    split
    · refine ⟨by simp, ?_, chain'_append_of_last_le hch _ (le_refl _), by simp⟩
      rw [List.head?_append_of_ne_nil _ hne, hh]
    · exact ⟨hne, hh, hch, by simp⟩
  obtain ⟨d1, d2, d3, d4⟩ := hseam s.cumDistKm r1 m1
  obtain ⟨a1, a2, a3, a4⟩ := hseam s.cumAscentM r2 m2
  obtain ⟨e1, e2, e3, e4⟩ := hseam s.cumDescentM r3 m3
  obtain ⟨t1, t2, t3, t4⟩ := hseam s.cumTimeH r4 m4
  simp only [appendSegData]
  obtain ⟨p1, p2, p3, p4, p5, p6⟩ := foldl_pushStep_proj δs _
  refine ⟨?_, ?_, ?_, ?_, ?_, ?_, ?_, ?_, ?_, ?_, ?_, ?_⟩
  · rw [p1, p5]
    obtain ⟨-, f2, -, -⟩ := pushFold_invariant (δs.map fun sv => sv.distKm) _ d1
    rw [f2]
    simp only [List.length_map, List.length_append, hds, d4, q1]
    split_ifs with h0 <;> omega
  · rw [p2, p5]
    obtain ⟨-, f2, -, -⟩ := pushFold_invariant (δs.map fun sv => sv.ascentM) _ a1
    rw [f2]
    simp only [List.length_map, List.length_append, hds, a4, q2]
    split_ifs with h0 <;> omega
  · rw [p3, p5]
    obtain ⟨-, f2, -, -⟩ := pushFold_invariant (δs.map fun sv => sv.descentM) _ e1
    rw [f2]
    simp only [List.length_map, List.length_append, hds, e4, q3]
    split_ifs with h0 <;> omega
  · rw [p4, p5]
    obtain ⟨-, f2, -, -⟩ := pushFold_invariant (δs.map fun sv => sv.segTimeH) _ t1
    rw [f2]
    simp only [List.length_map, List.length_append, hds, t4, q4]
    split_ifs with h0 <;> omega
  · rw [p1]
    obtain ⟨-, -, f3, -⟩ := pushFold_invariant (δs.map fun sv => sv.distKm) _ d1
    rw [f3, d2]
  · rw [p2]
    obtain ⟨-, -, f3, -⟩ := pushFold_invariant (δs.map fun sv => sv.ascentM) _ a1
    rw [f3, a2]
  · rw [p3]
    obtain ⟨-, -, f3, -⟩ := pushFold_invariant (δs.map fun sv => sv.descentM) _ e1
    rw [f3, e2]
  · rw [p4]
    obtain ⟨-, -, f3, -⟩ := pushFold_invariant (δs.map fun sv => sv.segTimeH) _ t1
    rw [f3, t2]
  · rw [p1]
    obtain ⟨-, -, -, f4⟩ := pushFold_invariant (δs.map fun sv => sv.distKm) _ d1
    exact f4 (fun u hu => by
      obtain ⟨sv, hsv, rfl⟩ := List.mem_map.mp hu
      exact (hpos sv hsv).1) d3
  · rw [p2]
    obtain ⟨-, -, -, f4⟩ := pushFold_invariant (δs.map fun sv => sv.ascentM) _ a1
    exact f4 (fun u hu => by
      obtain ⟨sv, hsv, rfl⟩ := List.mem_map.mp hu
      exact (hpos sv hsv).2.1) a3
  · rw [p3]
    obtain ⟨-, -, -, f4⟩ := pushFold_invariant (δs.map fun sv => sv.descentM) _ e1
    exact f4 (fun u hu => by
      obtain ⟨sv, hsv, rfl⟩ := List.mem_map.mp hu
      exact (hpos sv hsv).2.2.1) e3
  · rw [p4]
    obtain ⟨-, -, -, f4⟩ := pushFold_invariant (δs.map fun sv => sv.segTimeH) _ t1
    exact f4 (fun u hu => by
      obtain ⟨sv, hsv, rfl⟩ := List.mem_map.mp hu
      exact (hpos sv hsv).2.2.2) t3

/-- One segment of the calculate loop preserves the cumulative-array
well-formedness. -/
lemma processSegment_CumOK (P : Params) (H : Haversine)
    (hf : 0 < P.speedFlatKmh) (hv : 0 < P.speedVertMh)
    (hdfac : 0 < P.downhillFactor) (s : CalcState) (pts : List TrackPoint)
    (hInv : CumOK s) : CumOK (processSegment P H s pts) := by
  simp only [processSegment]
  split_ifs with ha hb
  · exact hInv
  · exact hInv
  · refine appendSegData_CumOK _ _ _ ?_ (by omega) ?_ hInv
    · refine stepDeltas_length P H _ _ ?_ (by omega)
      rw [cumulativeDeadbandFilter_length, medianFilter_length,
        List.length_map]
    · intro sv hsv
      obtain ⟨z, hz, rfl⟩ := List.mem_map.mp hsv
      exact stepVals_nonneg P H hf hv hdfac _ _

/-- The whole segment fold preserves the cumulative-array well-formedness. -/
lemma foldl_processSegment_CumOK (P : Params) (H : Haversine)
    (hf : 0 < P.speedFlatKmh) (hv : 0 < P.speedVertMh)
    (hdfac : 0 < P.downhillFactor) :
    ∀ (segs : List (List TrackPoint)) (s : CalcState), CumOK s →
      CumOK (segs.foldl (processSegment P H) s) := by
  intro segs
  induction segs with
  | nil => exact fun s h => h
  | cons seg segs ih =>
    intro s h
    exact ih _ (processSegment_CumOK P H hf hv hdfac s seg h)

/-- The reset state is well-formed. -/
lemma resetState_CumOK (s : CalcState) : CumOK (resetState s) := by
  refine ⟨rfl, rfl, rfl, rfl, rfl, rfl, rfl, rfl, ?_, ?_, ?_, ?_⟩ <;>
    exact List.chain'_singleton 0

/-- Transport of the well-formedness along equal trajectory and arrays. -/
lemma CumOK_congr {a b : CalcState} (ht : a.track = b.track)
    (h1 : a.cumDistKm = b.cumDistKm) (h2 : a.cumAscentM = b.cumAscentM)
    (h3 : a.cumDescentM = b.cumDescentM) (h4 : a.cumTimeH = b.cumTimeH)
    (h : CumOK b) : CumOK a := by
  unfold CumOK at h ⊢
  rw [ht, h1, h2, h3, h4]
  exact h

/-- The full calculate run yields well-formed cumulative arrays. -/
lemma calcRun_CumOK (P : Params) (H : Haversine)
    (segments : List (List TrackPoint)) (ir : Bool) (wps : List Waypoint)
    (s : CalcState) (hseg : segments ≠ []) (hf : 0 < P.speedFlatKmh)
    (hv : 0 < P.speedVertMh) (hdfac : 0 < P.downhillFactor) :
    CumOK (calcRun P H segments ir wps s) := by
  simp only [calcRun, if_neg hseg]
  have h1 : CumOK (segments.foldl (processSegment P H) (resetState s)) :=
    foldl_processSegment_CumOK P H hf hv hdfac segments _ (resetState_CumOK s)
  have h2 : ∀ (u : CalcState), CumOK u →
      ∀ i l lk, CumOK (addRoadbookIndex u i l lk) := by
    intro u hu i l lk
    obtain ⟨w1, w2, w3, w4, w5, w6⟩ := addRoadbookIndex_preserves u i l lk
    exact CumOK_congr w1 w3 w4 w5 w6 hu
  have h3 : ∀ (u : CalcState), CumOK u → ∀ wl : List Waypoint,
      CumOK (wl.foldl (importWaypoint H) u) := by
    intro u hu wl
    obtain ⟨w1, w2, w3, w4, w5, w6⟩ := foldl_importWaypoint_preserves H wl u
    exact CumOK_congr w1 w3 w4 w5 w6 hu
  split_ifs with hc1 hc2
  · exact h3 _ (h2 _ (h2 _ h1 _ _ _) _ _ _) wps
  · exact h3 _ h1 wps
  · exact h2 _ (h2 _ h1 _ _ _) _ _ _
  · exact h1

/-- The trajectory and distance array of a non-empty calculate run are those
of the segment fold: the roadbook phase never touches them. -/
lemma calcRun_proj (P : Params) (H : Haversine)
    (segments : List (List TrackPoint)) (ir : Bool) (wps : List Waypoint)
    (s : CalcState) (hseg : segments ≠ []) :
    (calcRun P H segments ir wps s).track
      = (segments.foldl (processSegment P H) (resetState s)).track ∧
    (calcRun P H segments ir wps s).cumDistKm
      = (segments.foldl (processSegment P H) (resetState s)).cumDistKm := by
  simp only [calcRun, if_neg hseg]
  have hadd : ∀ (u : CalcState) i l lk,
      (addRoadbookIndex u i l lk).track = u.track ∧
      (addRoadbookIndex u i l lk).cumDistKm = u.cumDistKm := by
    intro u i l lk
    obtain ⟨w1, -, w3, -, -, -⟩ := addRoadbookIndex_preserves u i l lk
    exact ⟨w1, w3⟩
  have himp : ∀ (u : CalcState),
      (wps.foldl (importWaypoint H) u).track = u.track ∧
      (wps.foldl (importWaypoint H) u).cumDistKm = u.cumDistKm := by
    intro u
    obtain ⟨w1, -, w3, -, -, -⟩ := foldl_importWaypoint_preserves H wps u
    exact ⟨w1, w3⟩
  split_ifs with hc1 hc2
  · obtain ⟨i1, i2⟩ := himp (addRoadbookIndex (addRoadbookIndex
      (segments.foldl (processSegment P H) (resetState s)) 0 "Start" true)
      ((segments.foldl (processSegment P H) (resetState s)).track.length - 1)
      "Finish" true)
    obtain ⟨o1, o2⟩ := hadd (addRoadbookIndex
      (segments.foldl (processSegment P H) (resetState s)) 0 "Start" true)
      ((segments.foldl (processSegment P H) (resetState s)).track.length - 1)
      "Finish" true
    obtain ⟨n1, n2⟩ := hadd
      (segments.foldl (processSegment P H) (resetState s)) 0 "Start" true
    exact ⟨(i1.trans o1).trans n1, (i2.trans o2).trans n2⟩
  · exact himp _
  · obtain ⟨o1, o2⟩ := hadd (addRoadbookIndex
      (segments.foldl (processSegment P H) (resetState s)) 0 "Start" true)
      ((segments.foldl (processSegment P H) (resetState s)).track.length - 1)
      "Finish" true
    obtain ⟨n1, n2⟩ := hadd
      (segments.foldl (processSegment P H) (resetState s)) 0 "Start" true
    exact ⟨o1.trans n1, o2.trans n2⟩
  · exact ⟨rfl, rfl⟩

/-- C5 (amended): after every calculate run on at least one parsed segment
with positive pace parameters, the four cumulative arrays have one common
length, equal to the trajectory's point count when any segment was usable
(and to `1` — the lone zero row — when none was, hence `max 1 ·`), entry 0
equal to zero, and each array monotone non-decreasing.  The claim's "point
count plus one" is refuted separately. -/
theorem C5_cumulative_arrays_invariant_amended (P : Params) (H : Haversine)
    (segments : List (List TrackPoint)) (ir : Bool) (wps : List Waypoint)
    (s : CalcState) (hseg : segments ≠ []) (hf : 0 < P.speedFlatKmh)
    (hv : 0 < P.speedVertMh) (hdfac : 0 < P.downhillFactor) :
    ((calcRun P H segments ir wps s).cumDistKm.length
        = (calcRun P H segments ir wps s).cumAscentM.length ∧
      (calcRun P H segments ir wps s).cumDistKm.length
        = (calcRun P H segments ir wps s).cumDescentM.length ∧
      (calcRun P H segments ir wps s).cumDistKm.length
        = (calcRun P H segments ir wps s).cumTimeH.length) ∧
    (calcRun P H segments ir wps s).cumDistKm.length
      = max 1 (calcRun P H segments ir wps s).track.length ∧
    ((calcRun P H segments ir wps s).cumDistKm.head? = some 0 ∧
      (calcRun P H segments ir wps s).cumAscentM.head? = some 0 ∧
      (calcRun P H segments ir wps s).cumDescentM.head? = some 0 ∧
      (calcRun P H segments ir wps s).cumTimeH.head? = some 0) ∧
    ((calcRun P H segments ir wps s).cumDistKm.Chain' (· ≤ ·) ∧
      (calcRun P H segments ir wps s).cumAscentM.Chain' (· ≤ ·) ∧
      (calcRun P H segments ir wps s).cumDescentM.Chain' (· ≤ ·) ∧
      (calcRun P H segments ir wps s).cumTimeH.Chain' (· ≤ ·)) := by
  obtain ⟨q1, q2, q3, q4, r1, r2, r3, r4, m1, m2, m3, m4⟩ :=
    calcRun_CumOK P H segments ir wps s hseg hf hv hdfac
  exact ⟨⟨q1.trans q2.symm, q1.trans q3.symm, q1.trans q4.symm⟩, q1,
    ⟨r1, r2, r3, r4⟩, ⟨m1, m2, m3, m4⟩⟩

/-- C5 (counterexample): one segment of two points five meters apart run
through calculate yields cumulative arrays of length 2 and a trajectory of 2
points — the common length is the point count, not the point count plus
one. -/
theorem C5_counterexample_array_length :
    ¬ ((calcRun ⟨4, 300, 1/2, 5, 35, 2⟩ havSq
          [[⟨0, 0, some 100⟩, ⟨1/200, 0, some 101⟩]] false []
          ⟨[], [], [], [], [], [], [], [], [], [], [], [], [], ""⟩).cumDistKm.length
        = (calcRun ⟨4, 300, 1/2, 5, 35, 2⟩ havSq
            [[⟨0, 0, some 100⟩, ⟨1/200, 0, some 101⟩]] false []
            ⟨[], [], [], [], [], [], [], [], [], [], [], [], [], ""⟩).track.length
          + 1) := by
  have hfold : List.foldl (processSegment ⟨4, 300, 1/2, 5, 35, 2⟩ havSq)
      (resetState ⟨[], [], [], [], [], [], [], [], [], [], [], [], [], ""⟩)
      [[⟨0, 0, some 100⟩, ⟨1/200, 0, some 101⟩]]
      = ({ track := [(0, 0), (1/200, 0)], breakIdx := [0],
           cumDistKm := [0, 1/40000], cumAscentM := [0, 0],
           cumDescentM := [0, 0], cumTimeH := [0, 1/160000],
           roadbookIdx := [], lockedIdx := [], roadbookLabels := [],
           legLabels := [], legStopsMin := [], legCondPct := [],
           legCritical := [], output := "" } : CalcState) := by
    norm_num [processSegment, resetState, resampleByDistance, cumArc, havSq,
      List.scanl, fillElevationOnPoints, forwardFillPts, backFillPts,
      resampleTargetsFull, resampleTargets, List.range_succ, resampleLoop,
      advanceJ, clamp, jsRound, clampToOdd, medianFilter, medianAt,
      List.range', List.insertionSort, List.orderedInsert,
      cumulativeDeadbandFilter, deadbandLoop, jsSign, List.findIdx_cons,
      stepDeltas, stepVals, stepDEleF, stepAscentM, stepDescentM, stepTimeH,
      appendSegData, pushStep]
  obtain ⟨ht, hd⟩ := calcRun_proj ⟨4, 300, 1/2, 5, 35, 2⟩ havSq
    [[⟨0, 0, some 100⟩, ⟨1/200, 0, some 101⟩]] false []
    ⟨[], [], [], [], [], [], [], [], [], [], [], [], [], ""⟩ (by simp)
  rw [hfold] at ht hd
  rw [ht, hd]
  norm_num

/-- C5 (witness): the amended invariant theorem applied to a concrete run
with one two-point segment and positive pace parameters. -/
theorem C5_witness :
    (([[⟨0, 0, some 100⟩, ⟨1/200, 0, some 101⟩]]
        : List (List TrackPoint)) ≠ [] ∧
      (0 : ℚ) < 4 ∧ (0 : ℚ) < 300 ∧ (0 : ℚ) < 1/2) ∧
    ((calcRun ⟨4, 300, 1/2, 5, 35, 2⟩ havSq
        [[⟨0, 0, some 100⟩, ⟨1/200, 0, some 101⟩]] false []
        ⟨[], [], [], [], [], [], [], [], [], [], [], [], [], ""⟩).cumDistKm.length
      = max 1 (calcRun ⟨4, 300, 1/2, 5, 35, 2⟩ havSq
          [[⟨0, 0, some 100⟩, ⟨1/200, 0, some 101⟩]] false []
          ⟨[], [], [], [], [], [], [], [], [], [], [], [], [], ""⟩).track.length ∧
      (calcRun ⟨4, 300, 1/2, 5, 35, 2⟩ havSq
        [[⟨0, 0, some 100⟩, ⟨1/200, 0, some 101⟩]] false []
        ⟨[], [], [], [], [], [], [], [], [], [], [], [], [], ""⟩).cumDistKm.head?
        = some 0 ∧
      (calcRun ⟨4, 300, 1/2, 5, 35, 2⟩ havSq
        [[⟨0, 0, some 100⟩, ⟨1/200, 0, some 101⟩]] false []
        ⟨[], [], [], [], [], [], [], [], [], [], [], [], [], ""⟩).cumTimeH.Chain'
        (· ≤ ·)) :=
  ⟨⟨by simp, by norm_num, by norm_num, by norm_num⟩,
    (C5_cumulative_arrays_invariant_amended ⟨4, 300, 1/2, 5, 35, 2⟩ havSq
      [[⟨0, 0, some 100⟩, ⟨1/200, 0, some 101⟩]] false []
      ⟨[], [], [], [], [], [], [], [], [], [], [], [], [], ""⟩
      (by simp) (by norm_num) (by norm_num) (by norm_num)).2.1,
    (C5_cumulative_arrays_invariant_amended ⟨4, 300, 1/2, 5, 35, 2⟩ havSq
      [[⟨0, 0, some 100⟩, ⟨1/200, 0, some 101⟩]] false []
      ⟨[], [], [], [], [], [], [], [], [], [], [], [], [], ""⟩
      (by simp) (by norm_num) (by norm_num) (by norm_num)).2.2.1.1,
    (C5_cumulative_arrays_invariant_amended ⟨4, 300, 1/2, 5, 35, 2⟩ havSq
      [[⟨0, 0, some 100⟩, ⟨1/200, 0, some 101⟩]] false []
      ⟨[], [], [], [], [], [], [], [], [], [], [], [], [], ""⟩
      (by simp) (by norm_num) (by norm_num) (by norm_num)).2.2.2.2.2.2⟩

/-- C6: appending a usable segment after an earlier one records the new
segment's start index and inserts, at that position in every cumulative
array, a seam entry that duplicates the previous final cumulative value —
the entry before it — so the step between segments contributes zero
distance, ascent, descent and time. -/
theorem C6_seam_duplicates_previous_totals (P : Params) (H : Haversine)
    (s : CalcState) (pts : List TrackPoint) (htrack : s.track ≠ [])
    (hl1 : s.cumDistKm.length = s.track.length)
    (hl2 : s.cumAscentM.length = s.track.length)
    (hl3 : s.cumDescentM.length = s.track.length)
    (hl4 : s.cumTimeH.length = s.track.length)
    (hpts : 2 ≤ pts.length)
    (hres : 2 ≤ (resampleByDistance H (fillElevationOnPoints pts)
        P.spacingM).length) :
    (processSegment P H s pts).breakIdx = s.breakIdx ++ [s.track.length] ∧
    ((processSegment P H s pts).cumDistKm[s.track.length]?
        = s.cumDistKm.getLast? ∧
      (processSegment P H s pts).cumDistKm[s.track.length - 1]?
        = s.cumDistKm.getLast?) ∧
    ((processSegment P H s pts).cumAscentM[s.track.length]?
        = s.cumAscentM.getLast? ∧
      (processSegment P H s pts).cumAscentM[s.track.length - 1]?
        = s.cumAscentM.getLast?) ∧
    ((processSegment P H s pts).cumDescentM[s.track.length]?
        = s.cumDescentM.getLast? ∧
      (processSegment P H s pts).cumDescentM[s.track.length - 1]?
        = s.cumDescentM.getLast?) ∧
    ((processSegment P H s pts).cumTimeH[s.track.length]?
        = s.cumTimeH.getLast? ∧
      (processSegment P H s pts).cumTimeH[s.track.length - 1]?
        = s.cumTimeH.getLast?) := by
  have htlen : 1 ≤ s.track.length := List.length_pos.mpr htrack
  have htpos : 0 < s.track.length := htlen
  have key : ∀ (l : List ℚ) (L2 : List ℚ), l.length = s.track.length →
      (l ++ [l.getLastD 0]) <+: L2 →
      L2[s.track.length]? = l.getLast? ∧
      L2[s.track.length - 1]? = l.getLast? := by
    intro l L2 hlen hpre
    have hne : l ≠ [] := by
      intro h
      rw [h] at hlen
      simp at hlen
      omega
    obtain ⟨t, ht⟩ := hpre
    subst ht
    have hA : (l ++ [l.getLastD 0]).length = s.track.length + 1 := by
      simp [hlen]
    constructor
    · rw [List.getElem?_append, if_pos (by omega)]
      rw [List.getElem?_append_right (le_of_eq hlen)]
      rw [← hlen]
      simp only [Nat.sub_self]
      rw [getLast?_eq_some_getLastD hne 0]
      rfl
    · rw [List.getElem?_append, if_pos (by omega)]
      rw [List.getElem?_append, if_pos (by omega)]
      rw [List.getLast?_eq_getElem?, hlen]
  simp only [processSegment]
  rw [if_neg (by omega), if_neg (by omega)]
  simp only [appendSegData, if_pos htpos]
  obtain ⟨p1, p2, p3, p4, p5, p6⟩ := foldl_pushStep_proj
    (stepDeltas P H (resampleByDistance H (fillElevationOnPoints pts)
      P.spacingM) _) _
  refine ⟨by rw [p6], ?_, ?_, ?_, ?_⟩
  · rw [p1]
    exact key s.cumDistKm _ hl1 (pushFold_extends _ _)
  · rw [p2]
    exact key s.cumAscentM _ hl2 (pushFold_extends _ _)
  · rw [p3]
    exact key s.cumDescentM _ hl3 (pushFold_extends _ _)
  · rw [p4]
    exact key s.cumTimeH _ hl4 (pushFold_extends _ _)

/-- C6 (witness): appending a concrete second two-point segment after a
first one duplicates the prior totals at the seam row (index 2, equal to the
entry at index 1). -/
theorem C6_witness :
    (([((0 : ℚ), (0 : ℚ)), (1/200, 0)] : List (ℚ × ℚ)) ≠ [] ∧
      ([(0 : ℚ), 1/40000] : List ℚ).length
        = ([((0 : ℚ), (0 : ℚ)), (1/200, 0)] : List (ℚ × ℚ)).length ∧
      2 ≤ ([⟨0, 0, some 100⟩, ⟨1/200, 0, some 101⟩]
        : List TrackPoint).length ∧
      2 ≤ (resampleByDistance havSq (fillElevationOnPoints
        [⟨0, 0, some 100⟩, ⟨1/200, 0, some 101⟩]) 5).length) ∧
    ((processSegment ⟨4, 300, 1/2, 5, 35, 2⟩ havSq
        ⟨[(0, 0), (1/200, 0)], [0], [0, 1/40000], [0, 0], [0, 0],
          [0, 1/160000], [], [], [], [], [], [], [], ""⟩
        [⟨0, 0, some 100⟩, ⟨1/200, 0, some 101⟩]).breakIdx = [0, 2] ∧
      ((processSegment ⟨4, 300, 1/2, 5, 35, 2⟩ havSq
          ⟨[(0, 0), (1/200, 0)], [0], [0, 1/40000], [0, 0], [0, 0],
            [0, 1/160000], [], [], [], [], [], [], [], ""⟩
          [⟨0, 0, some 100⟩, ⟨1/200, 0, some 101⟩]).cumDistKm[2]?
          = some (1/40000) ∧
        (processSegment ⟨4, 300, 1/2, 5, 35, 2⟩ havSq
          ⟨[(0, 0), (1/200, 0)], [0], [0, 1/40000], [0, 0], [0, 0],
            [0, 1/160000], [], [], [], [], [], [], [], ""⟩
          [⟨0, 0, some 100⟩, ⟨1/200, 0, some 101⟩]).cumDistKm[1]?
          = some (1/40000)) ∧
      ((processSegment ⟨4, 300, 1/2, 5, 35, 2⟩ havSq
          ⟨[(0, 0), (1/200, 0)], [0], [0, 1/40000], [0, 0], [0, 0],
            [0, 1/160000], [], [], [], [], [], [], [], ""⟩
          [⟨0, 0, some 100⟩, ⟨1/200, 0, some 101⟩]).cumAscentM[2]?
          = some 0 ∧
        (processSegment ⟨4, 300, 1/2, 5, 35, 2⟩ havSq
          ⟨[(0, 0), (1/200, 0)], [0], [0, 1/40000], [0, 0], [0, 0],
            [0, 1/160000], [], [], [], [], [], [], [], ""⟩
          [⟨0, 0, some 100⟩, ⟨1/200, 0, some 101⟩]).cumAscentM[1]?
          = some 0) ∧
      ((processSegment ⟨4, 300, 1/2, 5, 35, 2⟩ havSq
          ⟨[(0, 0), (1/200, 0)], [0], [0, 1/40000], [0, 0], [0, 0],
            [0, 1/160000], [], [], [], [], [], [], [], ""⟩
          [⟨0, 0, some 100⟩, ⟨1/200, 0, some 101⟩]).cumDescentM[2]?
          = some 0 ∧
        (processSegment ⟨4, 300, 1/2, 5, 35, 2⟩ havSq
          ⟨[(0, 0), (1/200, 0)], [0], [0, 1/40000], [0, 0], [0, 0],
            [0, 1/160000], [], [], [], [], [], [], [], ""⟩
          [⟨0, 0, some 100⟩, ⟨1/200, 0, some 101⟩]).cumDescentM[1]?
          = some 0) ∧
      ((processSegment ⟨4, 300, 1/2, 5, 35, 2⟩ havSq
          ⟨[(0, 0), (1/200, 0)], [0], [0, 1/40000], [0, 0], [0, 0],
            [0, 1/160000], [], [], [], [], [], [], [], ""⟩
          [⟨0, 0, some 100⟩, ⟨1/200, 0, some 101⟩]).cumTimeH[2]?
          = some (1/160000) ∧
        (processSegment ⟨4, 300, 1/2, 5, 35, 2⟩ havSq
          ⟨[(0, 0), (1/200, 0)], [0], [0, 1/40000], [0, 0], [0, 0],
            [0, 1/160000], [], [], [], [], [], [], [], ""⟩
          [⟨0, 0, some 100⟩, ⟨1/200, 0, some 101⟩]).cumTimeH[1]?
          = some (1/160000))) := by
  have hres : 2 ≤ (resampleByDistance havSq (fillElevationOnPoints
      [⟨0, 0, some 100⟩, ⟨1/200, 0, some 101⟩]) 5).length := by
    norm_num [resampleByDistance, cumArc, havSq, List.scanl,
      fillElevationOnPoints, forwardFillPts, backFillPts,
      resampleTargetsFull, resampleTargets, List.range_succ, resampleLoop,
      advanceJ, clamp]
  exact ⟨⟨by simp, rfl, by norm_num, hres⟩,
    C6_seam_duplicates_previous_totals ⟨4, 300, 1/2, 5, 35, 2⟩ havSq
      ⟨[(0, 0), (1/200, 0)], [0], [0, 1/40000], [0, 0], [0, 0],
        [0, 1/160000], [], [], [], [], [], [], [], ""⟩
      [⟨0, 0, some 100⟩, ⟨1/200, 0, some 101⟩]
      (by simp) rfl rfl rfl rfl (by norm_num) hres⟩

end GpxPlanner
